import Mathlib

/-!
Verification of `neuroanalysis/stimuli.py`: stimulus description trees, their
evaluation into sampled signals, serialization, and square-pulse detection.

Numeric quantities (Python floats) are idealized as exact rationals (or reals
where the waveform math is transcendental).  The sampled-signal container
`TSeries` lives in `neuroanalysis.data`, outside the sources verified here;
everything about it is modelled from the spec's Sampled Signal contract and is
marked `Modelled from the spec:` below.
-/

/-- Index rounding modes accepted by the time-to-index conversion
(the `index_mode` argument: round, floor or ceil). -/
inductive IndexMode
  | round
  | floor
  | ceil
deriving DecidableEq, Repr

/-- Modelled from the spec: the Sampled Signal collaborator
(`neuroanalysis.data.TSeries`, whose source is not part of this repository):
a uniformly sampled series with start time `t0`, sample step `dt`, a data
buffer and optional units. -/
structure TSer (α : Type) where
  data : List α
  t0 : ℚ
  dt : ℚ
  units : Option String := none
deriving DecidableEq, Repr

abbrev TSQ := TSer ℚ

/-- Modelled from the spec: `TSeries.index_at` converts a continuous time value
to an integer sample index under the selected rounding policy. -/
def TSer.indexAt (tr : TSer α) (t : ℚ) (mode : IndexMode) : ℤ :=
  match mode with
  | .round => round ((t - tr.t0) / tr.dt)
  | .floor => ⌊(t - tr.t0) / tr.dt⌋
  | .ceil => ⌈(t - tr.t0) / tr.dt⌉

/-- Modelled from the spec: `TSeries.time_at` gives the time value of sample `i`. -/
def TSer.timeAt (tr : TSer α) (i : ℕ) : ℚ :=
  tr.t0 + (i : ℚ) * tr.dt

/-- Python slice-bound normalization for a buffer of `n` samples: a negative
bound counts from the end of the buffer, and bounds are clamped to `[0, n]`. -/
def pySliceIdx (n : ℕ) (i : ℤ) : ℕ :=
  if i < 0 then ((n : ℤ) + i).toNat else min i.toNat n

/-- `region.data[:] += v` over the index window `[i0, i1)` of a buffer
(a `TSeries.time_slice` view followed by an in-place add). -/
def addWindow (l : List ℚ) (i0 i1 : ℕ) (v : ℚ) : List ℚ :=
  l.mapIdx (fun j x => if i0 ≤ j ∧ j < i1 then x + v else x)

/-- `region.data[:] = True` over the index window `[i0, i1)` of a boolean buffer. -/
def markWindow (l : List Bool) (i0 i1 : ℕ) : List Bool :=
  l.mapIdx (fun j x => if i0 ≤ j ∧ j < i1 then true else x)

/-- The waveform-variant data carried by a stimulus node, for the variants
whose evaluation math is rational: plain `Stimulus`, `Offset`, `SquarePulse`. -/
inductive KindQ
  | base
  | offset (amplitude : ℚ)
  | pulse (duration amplitude : ℚ)
deriving DecidableEq, Repr

/-- A stimulus node: variant kind, `start_time` relative to the parent, and
child items.  (The `units` and `description` attributes play no role in
evaluation or detection and are not carried here.) -/
inductive StimQ
  | mk (kind : KindQ) (startTime : ℚ) (items : List StimQ)
deriving Repr

def StimQ.kind : StimQ → KindQ
  | .mk k _ _ => k

def StimQ.startTime : StimQ → ℚ
  | .mk _ st _ => st

def StimQ.items : StimQ → List StimQ
  | .mk _ _ its => its

/-- `duration`: 0 by default for `Stimulus` and `Offset`; the declared duration
for `SquarePulse`. -/
def KindQ.duration : KindQ → ℚ
  | .base => 0
  | .offset _ => 0
  | .pulse d _ => d

mutual

/-- The body of `Stimulus.eval` and of the variant overrides, acting on the
shared data buffer: the children are evaluated into the buffer first
(`Stimulus.eval`), then the variant adds its own waveform over its window.
`gbase` is the sum of the ancestors' start times, so `gbase + startTime` is the
node's `global_start_time`. -/
def StimQ.evalInto (mode : IndexMode) (t0 dt : ℚ) : StimQ → ℚ → List ℚ → List ℚ
  | .mk k st items, gbase, data =>
    let gst := gbase + st
    let d1 := evalItemsInto mode t0 dt items gst data
    match k with
    | .base => d1
    | .offset a =>
      let tr : TSQ := ⟨d1, t0, dt, none⟩
      addWindow d1 (pySliceIdx d1.length (tr.indexAt gst mode)) d1.length a
    | .pulse dur a =>
      let tr : TSQ := ⟨d1, t0, dt, none⟩
      addWindow d1 (pySliceIdx d1.length (tr.indexAt gst mode))
        (pySliceIdx d1.length (tr.indexAt (gst + dur) mode)) a

/-- `for item in self.items: item.eval(trace=trace, index_mode=index_mode)`. -/
def evalItemsInto (mode : IndexMode) (t0 dt : ℚ) :
    List StimQ → ℚ → List ℚ → List ℚ
  | [], _, data => data
  | it :: rest, gbase, data =>
    evalItemsInto mode t0 dt rest gbase (StimQ.evalInto mode t0 dt it gbase data)

end

mutual

/-- The body of `Stimulus.mask` and of the variant overrides: children first,
then the variant marks `True` over its window (`Offset` marks from its start
point to the end of the buffer). -/
def StimQ.maskInto (mode : IndexMode) (t0 dt : ℚ) : StimQ → ℚ → List Bool → List Bool
  | .mk k st items, gbase, data =>
    let gst := gbase + st
    let d1 := maskItemsInto mode t0 dt items gst data
    match k with
    | .base => d1
    | .offset _ =>
      let tr : TSer Bool := ⟨d1, t0, dt, none⟩
      markWindow d1 (pySliceIdx d1.length (tr.indexAt gst mode)) d1.length
    | .pulse dur _ =>
      let tr : TSer Bool := ⟨d1, t0, dt, none⟩
      markWindow d1 (pySliceIdx d1.length (tr.indexAt gst mode))
        (pySliceIdx d1.length (tr.indexAt (gst + dur) mode))

/-- `for item in self.items: item.mask(trace=trace, index_mode=index_mode)`. -/
def maskItemsInto (mode : IndexMode) (t0 dt : ℚ) :
    List StimQ → ℚ → List Bool → List Bool
  | [], _, data => data
  | it :: rest, gbase, data =>
    maskItemsInto mode t0 dt rest gbase (StimQ.maskInto mode t0 dt it gbase data)

end

/-- Modelled from the spec: the `TSeries` constructor (not part of the sources
here).  A series is built from an explicit time array, or from a data buffer
together with exactly one of a time step `dt` or a `sample_rate`; the start
time defaults to 0 when not given.  Unresolvable timing arguments raise a
configuration error. -/
def mkTSeries (data : List α) (t0 : Option ℚ) (dt sampleRate : Option ℚ)
    (timeValues : Option (List ℚ)) (units : Option String) :
    Except String (TSer α) :=
  match timeValues with
  | some tv => .ok ⟨data, tv.headD 0, tv.getD 1 0 - tv.headD 0, units⟩
  | none =>
    match dt, sampleRate with
    | none, none => .error "Either dt or sample_rate must be specified."
    | some d, none => .ok ⟨data, t0.getD 0, d, units⟩
    | none, some r => .ok ⟨data, t0.getD 0, 1 / r, units⟩
    | some _, some _ => .error "Cannot specify both dt and sample_rate."

/-- `Stimulus._make_eval_trace`: reuse a caller-supplied trace; otherwise build
a zero-filled buffer sized from the explicit time array or from `n_pts`
(asserting that one of them was given) and hand it to the `TSeries`
constructor. -/
def makeEvalTrace (zero : α) (units : Option String) (trace : Option (TSer α))
    (t0 : Option ℚ) (nPts : Option ℕ) (dt sampleRate : Option ℚ)
    (timeValues : Option (List ℚ)) : Except String (TSer α) :=
  match trace with
  | some tr => .ok tr
  | none =>
    match timeValues with
    | some tv =>
      mkTSeries (List.replicate tv.length zero) t0 dt sampleRate (some tv) units
    | none =>
      match nPts with
      | none => .error "Must specify n_pts, time_values, or trace."
      | some n => mkTSeries (List.replicate n zero) t0 dt sampleRate none units

/-- `Stimulus.eval` entry point: default the start time to 0 when neither an
explicit time array nor `t0` was given, resolve the output trace, then evaluate
the whole tree into its buffer.  (Node `units` are not modelled; the created
trace's units are `none`.) -/
def StimQ.eval (s : StimQ) (timeValues : Option (List ℚ) := none)
    (nPts : Option ℕ := none) (dt : Option ℚ := none)
    (sampleRate : Option ℚ := none) (t0 : Option ℚ := none)
    (trace : Option TSQ := none) (mode : IndexMode := .round) :
    Except String TSQ :=
  let t0d := if timeValues = none ∧ t0 = none then some 0 else t0
  match makeEvalTrace 0 none trace t0d nPts dt sampleRate timeValues with
  | .error e => .error e
  | .ok tr => .ok { tr with data := s.evalInto mode tr.t0 tr.dt 0 tr.data }

/-- `Stimulus.mask` entry point: same trace resolution as `eval` but, unlike
`eval`, without the explicit defaulting of `t0` to 0 before trace creation. -/
def StimQ.mask (s : StimQ) (trace : Option (TSer Bool) := none)
    (t0 : Option ℚ := none) (nPts : Option ℕ := none) (dt : Option ℚ := none)
    (sampleRate : Option ℚ := none) (timeValues : Option (List ℚ) := none)
    (mode : IndexMode := .round) : Except String (TSer Bool) :=
  match makeEvalTrace false none trace t0 nPts dt sampleRate timeValues with
  | .error e => .error e
  | .ok tr => .ok { tr with data := s.maskInto mode tr.t0 tr.dt 0 tr.data }

/-- `numpy.diff`: successive differences of a buffer. -/
def npDiff (l : List ℚ) : List ℚ :=
  (l.zip l.tail).map (fun p => p.2 - p.1)

/-- The `SquarePulse` records returned by the pulse detectors: the declared
parameters together with the `pulse_number` assigned during detection. -/
structure PulseQ where
  startTime : ℚ
  duration : ℚ
  amplitude : ℚ
  pulseNumber : ℕ
  units : Option String := none
deriving DecidableEq, Repr

/-- `find_square_pulses` (exact mode): baseline is the caller's value or the
first sample; boundaries (`changes`) are the indices just after a non-zero
first difference; every boundary whose sample differs from baseline opens a
pulse running to the next boundary (or the end of the trace), and the new
pulse's `pulse_number` is set to the boundary's position `i` in the boundary
list. -/
def findSquarePulses (trace : TSQ) (baseline : Option ℚ := none) : List PulseQ :=
  let bl := baseline.getD (trace.data.headD 0)
  let sdiff := npDiff trace.data
  let changes := ((List.range sdiff.length).filter
    (fun j => decide (sdiff.getD j 0 ≠ 0))).map (· + 1)
  changes.enum.filterMap (fun p =>
    let i := p.1
    let start := p.2
    let amp := trace.data.getD start 0 - bl
    if amp = 0 then none
    else
      let stop := if i + 1 < changes.length then changes.getD (i + 1) 0
        else trace.data.length
      some ⟨trace.timeAt start, ((stop : ℚ) - (start : ℚ)) * trace.dt, amp, i,
        trace.units⟩)

/-- The claim-side reading of exact detection: the boundary list as in
`find_square_pulses`, but with each boundary paired with its successor
boundary (or the end of the trace) by zipping, each such run becoming one
pulse when its starting value differs from baseline, numbered by the index of
its opening boundary. -/
def claimPulses (trace : TSQ) (baseline : Option ℚ := none) : List PulseQ :=
  let bl := baseline.getD (trace.data.headD 0)
  let sdiff := npDiff trace.data
  let changes := ((List.range sdiff.length).filter
    (fun j => decide (sdiff.getD j 0 ≠ 0))).map (· + 1)
  (changes.zip (changes.drop 1 ++ ([trace.data.length] : List ℕ))).enum.filterMap (fun q =>
    let i : ℕ := q.1
    let start : ℕ := q.2.1
    let stop : ℕ := q.2.2
    let amp := trace.data.getD start 0 - bl
    if amp = 0 then none
    else
      some ⟨trace.timeAt start, ((stop : ℚ) - (start : ℚ)) * trace.dt, amp, i,
        trace.units⟩)

/-- `Stimulus.duration` of a node (variant-defined; base default 0). -/
def StimQ.duration (s : StimQ) : ℚ :=
  s.kind.duration

/-- `global_start_time`: the sum of `start_time` over the node's ancestry;
`gbase` is the ancestor part of the sum. -/
def StimQ.globalStartTime (gbase : ℚ) (s : StimQ) : ℚ :=
  gbase + s.startTime

/-- `global_end_time = global_start_time + duration`. -/
def StimQ.globalEndTime (gbase : ℚ) (s : StimQ) : ℚ :=
  StimQ.globalStartTime gbase s + s.duration

/-- `total_duration` exactly as the code computes it:
`self.global_end_time - self.global_start_time`. -/
def StimQ.totalDuration (gbase : ℚ) (s : StimQ) : ℚ :=
  StimQ.globalEndTime gbase s - StimQ.globalStartTime gbase s

/-- `total_global_end_time`:
`max([self.global_end_time] + [item.total_global_end_time for item in self.items])`. -/
def StimQ.totalGlobalEndTime (gbase : ℚ) : StimQ → ℚ
  | .mk k st items =>
    (items.attach.map (fun it => StimQ.totalGlobalEndTime (gbase + st) it.val)).foldl
      max (gbase + st + k.duration)
termination_by s => sizeOf s
decreasing_by
  simp_wf
  have := List.sizeOf_lt_of_mem it.property
  omega

/-- A base `Stimulus` (duration 0) with one `SquarePulse` child starting at 1
with duration 2: the subtree extends to global time 3 while the composite's
own duration is 0. -/
def c4Example : StimQ :=
  .mk .base 0 [.mk (.pulse 2 1) 1 []]

/-- The mutable parent/child state of a collection of stimulus nodes,
identified by natural numbers: `parentOf` models the `_parent` weak reference
and `itemsOf` the `_items` child list of each node. -/
@[ext]
structure TreeState where
  parentOf : ℕ → Option ℕ
  itemsOf : ℕ → List ℕ

/-- The fresh state: no node has a parent or children. -/
def initTreeState : TreeState :=
  ⟨fun _ => none, fun _ => []⟩

/-- `self._parent = WeakRef(p)`. -/
def setParentField (s : TreeState) (x : ℕ) (p : Option ℕ) : TreeState :=
  ⟨fun y => if y = x then p else s.parentOf y, s.itemsOf⟩

/-- Overwrite one node's `_items` list. -/
def setItemsField (s : TreeState) (p : ℕ) (l : List ℕ) : TreeState :=
  ⟨s.parentOf, fun y => if y = p then l else s.itemsOf y⟩

/-- Python `list.insert` with a nonnegative index (clamped to the length). -/
def pyInsert (l : List ℕ) (i : ℕ) (x : ℕ) : List ℕ :=
  l.take i ++ [x] ++ l.drop i

/-- Python `item in items` on Stimulus objects: CPython matches each element
by `x is y or x == y`, where `==` is `Stimulus.__eq__` (deep structural
equality).  The relation `eqv` records which distinct object labels are
`__eq__`-equal in the run under consideration. -/
def pyElem (eqv : ℕ → ℕ → Bool) (x : ℕ) (l : List ℕ) : Prop :=
  x ∈ l ∨ ∃ y ∈ l, eqv x y = true

instance (eqv : ℕ → ℕ → Bool) (x : ℕ) (l : List ℕ) : Decidable (pyElem eqv x l) :=
  decidable_of_iff (x ∈ l ∨ ∃ y ∈ l, eqv x y = true) Iff.rfl

/-- Python `list.remove`: drop the first element matching the argument by
identity or `__eq__`; `none` is the ValueError raised (before any mutation)
when nothing matches. -/
def pyRemove (eqv : ℕ → ℕ → Bool) : List ℕ → ℕ → Option (List ℕ)
  | [], _ => none
  | y :: rest, x =>
    if x = y ∨ eqv x y = true then some rest
    else (pyRemove eqv rest x).map (y :: ·)

/-- No two distinct labels are `__eq__`-equal: the run contains no pair of
structurally equal but distinct nodes. -/
def SubId (eqv : ℕ → ℕ → Bool) : Prop :=
  ∀ a b, eqv a b = true → a = b

/-- The aliasing-free relation (all participating nodes pairwise
structurally distinct). -/
def noEqv : ℕ → ℕ → Bool := fun _ _ => false

/-- An aliasing relation for the counterexample: the distinct labels 1 and 2
are structurally equal (`__eq__`) while being different objects. -/
def eqvCex : ℕ → ℕ → Bool := fun a b => (a == 1 && b == 2) || (a == 2 && b == 1)

/-- Tags for the three mutually recursive mutation member functions. -/
inductive CallK
  | setp (x : ℕ) (p : Option ℕ)
  | rem (self x : ℕ)
  | app (self x : ℕ)

/-- The mutually recursive trio `Stimulus.parent` (setter) / `remove_item` /
`append_item`, merged into one fuel-indexed function so the recursion is
structural on `fuel`.

* `.setp x p`: return if the parent is unchanged; otherwise update the weak
  reference, ask the old parent to remove the node - swallowing the ValueError
  (`none`) when it is already removed - and append the node to the new parent
  unless already among its items, the membership test `self not in
  new_parent.items` matching by identity or `Stimulus.__eq__` (`pyElem eqv`).
* `.rem self x`: `self._items.remove(x)` - removal of the first
  identity-or-`__eq__` match, `none` modelling the ValueError raised before
  any mutation when nothing matches - then clear the item's parent.
* `.app self x`: append to `_items`, then set the item's parent.

The source recursion terminates within a constant depth, so `fuel` is never
exhausted in the executions the theorems cover (they all end in explicit
`some` results at `opFuel`). -/
def treeExec (eqv : ℕ → ℕ → Bool) : ℕ → TreeState → CallK → Option TreeState
  | 0, _, _ => none
  | fuel + 1, s, .setp x p =>
    let old := s.parentOf x
    if old = p then some s
    else
      let s1 := setParentField s x p
      let s2 := match old with
        | some o =>
          match treeExec eqv fuel s1 (.rem o x) with
          | some sr => sr
          | none => s1
        | none => s1
      match p with
      | some np => if pyElem eqv x (s2.itemsOf np) then some s2
          else treeExec eqv fuel s2 (.app np x)
      | none => some s2
  | fuel + 1, s, .rem self x =>
    match pyRemove eqv (s.itemsOf self) x with
    | some l2 => treeExec eqv fuel (setItemsField s self l2) (.setp x none)
    | none => none
  | fuel + 1, s, .app self x =>
    treeExec eqv fuel (setItemsField s self (s.itemsOf self ++ [x]))
      (.setp x (some self))

/-- Fuel that is never exhausted: the source recursion bottoms out within a
handful of nested calls (the execution lemmas below never reach 0). -/
def opFuel : ℕ := 12

/-- `node.parent = p`. -/
def setParent (eqv : ℕ → ℕ → Bool) (s : TreeState) (x : ℕ) (p : Option ℕ) : TreeState :=
  (treeExec eqv opFuel s (.setp x p)).getD s

/-- `self.append_item(x)`. -/
def appendItem (eqv : ℕ → ℕ → Bool) (s : TreeState) (self x : ℕ) : TreeState :=
  (treeExec eqv opFuel s (.app self x)).getD s

/-- `self.insert_item(i, x)`: insert into `_items` at an index, then set the
item's parent. -/
def insertItem (eqv : ℕ → ℕ → Bool) (s : TreeState) (self i x : ℕ) : TreeState :=
  let s1 := setItemsField s self (pyInsert (s.itemsOf self) i x)
  (treeExec eqv opFuel s1 (.setp x (some self))).getD s1

/-- `self.remove_item(x)`; `none` models the uncaught ValueError (raised
before any mutation). -/
def removeItem (eqv : ℕ → ℕ → Bool) (s : TreeState) (self x : ℕ) : Option TreeState :=
  treeExec eqv opFuel s (.rem self x)

/-- C2 invariant: bidirectional parent/child consistency - every child of a
node has that node as its parent, a node's parent lists it among its items
exactly once, and a parentless node appears in no items list. -/
def Consistent (s : TreeState) : Prop :=
  (∀ p x, x ∈ s.itemsOf p → s.parentOf x = some p) ∧
  (∀ x p, s.parentOf x = some p → (s.itemsOf p).count x = 1) ∧
  (∀ x, s.parentOf x = none → ∀ p, x ∉ s.itemsOf p)

/-- The tree-mutation operations of the claim. -/
inductive TreeOp
  | append (self x : ℕ)
  | insert (self i x : ℕ)
  | remove (self x : ℕ)
  | setPar (x : ℕ) (p : Option ℕ)

/-- One operation; a `remove` whose ValueError escapes leaves the state
unchanged (the failing `list.remove` mutates nothing). -/
def stepOp (eqv : ℕ → ℕ → Bool) (s : TreeState) : TreeOp → TreeState
  | .append self x => appendItem eqv s self x
  | .insert self i x => insertItem eqv s self i x
  | .remove self x => (removeItem eqv s self x).getD s
  | .setPar x p => setParent eqv s x p

/-- Run a sequence of operations from a state. -/
def runOps (eqv : ℕ → ℕ → Bool) : TreeState → List TreeOp → TreeState
  | s, [] => s
  | s, op :: ops => runOps eqv (stepOp eqv s op) ops

/-- An operation is good when `append_item`/`insert_item` is not handed an
item already among that parent's items (cf. the C2 counterexample, which
shows the invariant fails without this restriction). -/
def goodOp (s : TreeState) : TreeOp → Prop
  | .append self x => x ∉ s.itemsOf self
  | .insert self _ x => x ∉ s.itemsOf self
  | .remove _ _ => True
  | .setPar _ _ => True

/-- Every operation of the sequence is good in the state where it runs. -/
def GoodSeq (eqv : ℕ → ℕ → Bool) : TreeState → List TreeOp → Prop
  | _, [] => True
  | s, op :: ops => goodOp s op ∧ GoodSeq eqv (stepOp eqv s op) ops

/-- JSON-safe scalar values held in saved `args` (floats idealized as ℚ;
Python ints as ℤ; None as `nil`; numeric arrays as rational lists). -/
inductive JVal
  | num (q : ℚ)
  | int (n : ℤ)
  | str (s : String)
  | nil
  | arr (l : List ℚ)
deriving DecidableEq, Repr

/-- The attribute slots every `Stimulus` carries: `description`, `start_time`,
`units`, and the `duration` slot (0 by default on the base class, set by the
variants that declare a duration; `Psp` overrides it with a property). -/
structure BaseFields where
  description : String
  startTime : ℚ
  units : Option String
  duration : ℚ
deriving DecidableEq, Repr

/-- Variant data for the serialization model: one constructor per class of
the source.  `lazyK` is `LazyLoadStimulus`: its `loader`/`source` capability
is not part of the saved record, so reloading one always raises - the model
carries the variant (with its inherited base attributes) to state exactly
that failure. -/
inductive Kind1
  | base
  | lazyK
  | offsetK (amplitude : ℚ)
  | pulseK (amplitude : ℚ) (pulseNumber : Option ℤ)
  | trainK (nPulses : ℤ) (pulseDuration amplitude interval : ℚ)
  | seriesK (pulseTimes pulseDurations amplitudes : List ℚ)
  | rampK (slope offsetVal : ℚ)
  | sineK (frequency amplitude phase offsetVal : ℚ)
  | chirpK (startFrequency endFrequency amplitude phase offsetVal : ℚ)
  | pspK (riseTime decayTau amplitude risePower : ℚ)
deriving DecidableEq, Repr

/-- A stimulus node with its full attribute data (serialization claims). -/
inductive Stim1
  | mk (kind : Kind1) (f : BaseFields) (items : List Stim1)
deriving Repr

def Stim1.kind1 : Stim1 → Kind1
  | .mk k _ _ => k

def Stim1.baseF : Stim1 → BaseFields
  | .mk _ f _ => f

def Stim1.items1 : Stim1 → List Stim1
  | .mk _ _ its => its

/-- `type(self).__name__`. -/
def Kind1.typeTag : Kind1 → String
  | .base => "Stimulus"
  | .lazyK => "LazyLoadStimulus"
  | .offsetK _ => "Offset"
  | .pulseK _ _ => "SquarePulse"
  | .trainK _ _ _ _ => "SquarePulseTrain"
  | .seriesK _ _ _ => "SquarePulseSeries"
  | .rampK _ _ => "Ramp"
  | .sineK _ _ _ _ => "Sine"
  | .chirpK _ _ _ _ _ => "Chirp"
  | .pspK _ _ _ _ => "Psp"

/-- The `_attributes` class lists, verbatim from the source (note `Ramp`
lists `initial_amplitude`, and `Sine` does not list `offset`). -/
def Kind1.attrNames : Kind1 → List String
  | .base => ["description", "start_time", "units"]
  | .lazyK => ["description", "start_time", "units"]
  | .offsetK _ => ["description", "start_time", "units", "amplitude"]
  | .pulseK _ _ => ["description", "start_time", "units", "duration", "amplitude"]
  | .trainK _ _ _ _ =>
    ["description", "start_time", "units", "n_pulses", "pulse_duration",
      "amplitude", "interval"]
  | .seriesK _ _ _ =>
    ["description", "start_time", "units", "pulse_times", "pulse_durations",
      "amplitudes"]
  | .rampK _ _ => ["description", "start_time", "units", "duration", "slope",
      "initial_amplitude"]
  | .sineK _ _ _ _ => ["description", "start_time", "units", "duration",
      "frequency", "amplitude", "phase"]
  | .chirpK _ _ _ _ _ => ["description", "start_time", "units", "duration",
      "start_frequency", "end_frequency", "amplitude", "phase", "offset"]
  | .pspK _ _ _ _ => ["description", "start_time", "units", "rise_time",
      "decay_tau", "amplitude", "rise_power"]

def unitsJ : Option String → JVal
  | some u => .str u
  | none => .nil

/-- `getattr(self, name)` on the object's actual attributes, `none` modelling
the AttributeError raised for a missing attribute.  `Ramp.__init__` stores the
constructor's `offset` argument under the attribute name `offset`, so looking
up `initial_amplitude` on a Ramp fails; `Psp.duration` is the computed
property `15 * max(rise_time, decay_tau)`. -/
def Stim1.getattrJ (s : Stim1) (name : String) : Option JVal :=
  if name = "description" then some (.str s.baseF.description)
  else if name = "start_time" then some (.num s.baseF.startTime)
  else if name = "units" then some (unitsJ s.baseF.units)
  else
    match s with
    | .mk .base f _ =>
      if name = "duration" then some (.num f.duration) else none
    | .mk .lazyK f _ =>
      if name = "duration" then some (.num f.duration) else none
    | .mk (.offsetK a) f _ =>
      if name = "duration" then some (.num f.duration)
      else if name = "amplitude" then some (.num a)
      else none
    | .mk (.pulseK a pn) f _ =>
      if name = "duration" then some (.num f.duration)
      else if name = "amplitude" then some (.num a)
      else if name = "pulse_number" then pn.map .int
      else none
    | .mk (.trainK n pd a iv) f _ =>
      if name = "duration" then some (.num f.duration)
      else if name = "n_pulses" then some (.int n)
      else if name = "pulse_duration" then some (.num pd)
      else if name = "amplitude" then some (.num a)
      else if name = "interval" then some (.num iv)
      else none
    | .mk (.seriesK ts ds amps) f _ =>
      if name = "duration" then some (.num f.duration)
      else if name = "pulse_times" then some (.arr ts)
      else if name = "pulse_durations" then some (.arr ds)
      else if name = "amplitudes" then some (.arr amps)
      else none
    | .mk (.rampK sl ofv) f _ =>
      if name = "duration" then some (.num f.duration)
      else if name = "slope" then some (.num sl)
      else if name = "offset" then some (.num ofv)
      else none
    | .mk (.sineK fr a ph ofv) f _ =>
      if name = "duration" then some (.num f.duration)
      else if name = "frequency" then some (.num fr)
      else if name = "amplitude" then some (.num a)
      else if name = "phase" then some (.num ph)
      else if name = "offset" then some (.num ofv)
      else none
    | .mk (.chirpK f0 f1 a ph ofv) f _ =>
      if name = "duration" then some (.num f.duration)
      else if name = "start_frequency" then some (.num f0)
      else if name = "end_frequency" then some (.num f1)
      else if name = "amplitude" then some (.num a)
      else if name = "phase" then some (.num ph)
      else if name = "offset" then some (.num ofv)
      else none
    | .mk (.pspK rt dtau a rp) _ _ =>
      if name = "duration" then some (.num (15 * max rt dtau))
      else if name = "rise_time" then some (.num rt)
      else if name = "decay_tau" then some (.num dtau)
      else if name = "amplitude" then some (.num a)
      else if name = "rise_power" then some (.num rp)
      else none

/-- The saved record: `{type, args, items}`. -/
inductive SaveRec
  | mk (type : String) (args : List (String × JVal)) (items : List SaveRec)
deriving Repr

/-- Python dict assignment on an association list. -/
def dictSet : List (String × JVal) → String → JVal → List (String × JVal)
  | [], k, v => [(k, v)]
  | (k0, v0) :: rest, k, v =>
    if k0 = k then (k0, v) :: rest else (k0, v0) :: dictSet rest k v

/-- Python dict lookup on an association list. -/
def dictGet : List (String × JVal) → String → Option JVal
  | [], _ => none
  | (k0, v0) :: rest, k => if k0 = k then some v0 else dictGet rest k

/-- The `for name in self._attributes: state.args[name] = ...` loop; `none`
lookups are AttributeErrors. -/
def buildArgs (s : Stim1) :
    List String → List (String × JVal) → Except String (List (String × JVal))
  | [], acc => .ok acc
  | name :: rest, acc =>
    match s.getattrJ name with
    | some v => buildArgs s rest (dictSet acc name v)
    | none => .error ("AttributeError: " ++ name)

mutual

/-- `Stimulus.save`: `{type, args: {start_time, then every _attributes
entry}, items: [child saves]}`; `SquarePulseTrain.save`/`SquarePulseSeries.save`
call it and then blank `items` (the children are still saved first, so a
failing child still raises). -/
def saveStim : Stim1 → Except String SaveRec
  | .mk k f items =>
    match buildArgs (.mk k f items) k.attrNames [("start_time", .num f.startTime)] with
    | .error e => .error e
    | .ok args =>
      match saveItems items with
      | .error e => .error e
      | .ok recs =>
        match k with
        | .trainK _ _ _ _ => .ok (.mk k.typeTag args [])
        | .seriesK _ _ _ => .ok (.mk k.typeTag args [])
        | _ => .ok (.mk k.typeTag args recs)

/-- `[item.save() for item in self.items]`. -/
def saveItems : List Stim1 → Except String (List SaveRec)
  | [] => .ok []
  | s :: rest =>
    match saveStim s with
    | .error e => .error e
    | .ok r =>
      match saveItems rest with
      | .error e => .error e
      | .ok rs => .ok (r :: rs)

end

def getNumReq (v : Option JVal) : Except String ℚ :=
  match v with
  | some (.num q) => .ok q
  | _ => .error "TypeError: missing or mistyped argument"

def getNumD (v : Option JVal) (d : ℚ) : Except String ℚ :=
  match v with
  | none => .ok d
  | some (.num q) => .ok q
  | some _ => .error "TypeError: mistyped argument"

def getIntReq (v : Option JVal) : Except String ℤ :=
  match v with
  | some (.int n) => .ok n
  | _ => .error "TypeError: missing or mistyped argument"

def getArrReq (v : Option JVal) : Except String (List ℚ) :=
  match v with
  | some (.arr l) => .ok l
  | _ => .error "TypeError: missing or mistyped argument"

def getStrD (v : Option JVal) (d : String) : Except String String :=
  match v with
  | none => .ok d
  | some (.str s) => .ok s
  | some _ => .error "TypeError: mistyped argument"

def getUnitsD (v : Option JVal) : Except String (Option String) :=
  match v with
  | none => .ok none
  | some .nil => .ok none
  | some (.str s) => .ok (some s)
  | some _ => .error "TypeError: mistyped argument"

/-- The SquarePulse children `SquarePulseTrain.__init__` generates:
`pulse_times = arange(n_pulses) * interval`, each pulse numbered in order. -/
def trainItems (n : ℤ) (pd a iv : ℚ) (u : Option String) : List Stim1 :=
  (List.range n.toNat).map (fun i =>
    .mk (.pulseK a (some (i : ℤ))) ⟨"square pulse", (i : ℚ) * iv, u, pd⟩ [])

/-- The SquarePulse children `SquarePulseSeries.__init__` generates, one per
entry of the parallel arrays. -/
def seriesItems (ts ds amps : List ℚ) (u : Option String) : List Stim1 :=
  (List.range ts.length).map (fun i =>
    .mk (.pulseK (amps.getD i 0) (some (i : ℤ)))
      ⟨"square pulse", ts.getD i 0, u, ds.getD i 0⟩ [])

/-- The registry contents: every `Stimulus.__subclasses__()` plus the base. -/
def knownTags : List String :=
  ["Stimulus", "LazyLoadStimulus", "Offset", "SquarePulse", "SquarePulseTrain",
    "SquarePulseSeries", "Ramp", "Sine", "Chirp", "Psp"]

/-- `item_class(items=children, **args)` / `item_class(**args)`: mirrors each
`__init__` signature - required positional parameters, defaults, the
construction-time child regeneration of the train/series classes, and the
fact that only the base `Stimulus` (and `LazyLoadStimulus`, which raises
anyway) accepts an `items` keyword. -/
def constructStim (ty : String) (args : List (String × JVal))
    (children : List Stim1) : Except String Stim1 :=
  if ty = "Stimulus" then
    match getStrD (dictGet args "description") "stimulus",
        getNumReq (dictGet args "start_time"),
        getUnitsD (dictGet args "units") with
    | .ok d, .ok st, .ok u => .ok (.mk .base ⟨d, st, u, 0⟩ children)
    | .error e, _, _ => .error e
    | _, .error e, _ => .error e
    | _, _, .error e => .error e
  else if ty = "LazyLoadStimulus" then
    .error "Use of a LazyLoadStimulus requires a loader to be specified upon init."
  else if children.length ≠ 0 then
    .error ("TypeError: " ++ ty ++ " got an unexpected keyword argument items")
  else if ty = "Offset" then
    match getNumReq (dictGet args "amplitude"),
        getNumD (dictGet args "start_time") 0,
        getStrD (dictGet args "description") "offset",
        getUnitsD (dictGet args "units") with
    | .ok a, .ok st, .ok d, .ok u => .ok (.mk (.offsetK a) ⟨d, st, u, 0⟩ [])
    | .error e, _, _, _ => .error e
    | _, .error e, _, _ => .error e
    | _, _, .error e, _ => .error e
    | _, _, _, .error e => .error e
  else if ty = "SquarePulse" then
    match getNumReq (dictGet args "start_time"),
        getNumReq (dictGet args "duration"),
        getNumReq (dictGet args "amplitude"),
        getStrD (dictGet args "description") "square pulse",
        getUnitsD (dictGet args "units") with
    | .ok st, .ok dur, .ok a, .ok d, .ok u =>
      .ok (.mk (.pulseK a none) ⟨d, st, u, dur⟩ [])
    | .error e, _, _, _, _ => .error e
    | _, .error e, _, _, _ => .error e
    | _, _, .error e, _, _ => .error e
    | _, _, _, .error e, _ => .error e
    | _, _, _, _, .error e => .error e
  else if ty = "SquarePulseTrain" then
    match getNumReq (dictGet args "start_time"),
        getIntReq (dictGet args "n_pulses"),
        getNumReq (dictGet args "pulse_duration"),
        getNumReq (dictGet args "amplitude"),
        getNumReq (dictGet args "interval"),
        getStrD (dictGet args "description") "square pulse train",
        getUnitsD (dictGet args "units") with
    | .ok st, .ok n, .ok pd, .ok a, .ok iv, .ok d, .ok u =>
      .ok (.mk (.trainK n pd a iv) ⟨d, st, u, 0⟩ (trainItems n pd a iv u))
    | .error e, _, _, _, _, _, _ => .error e
    | _, .error e, _, _, _, _, _ => .error e
    | _, _, .error e, _, _, _, _ => .error e
    | _, _, _, .error e, _, _, _ => .error e
    | _, _, _, _, .error e, _, _ => .error e
    | _, _, _, _, _, .error e, _ => .error e
    | _, _, _, _, _, _, .error e => .error e
  else if ty = "SquarePulseSeries" then
    match getNumReq (dictGet args "start_time"),
        getArrReq (dictGet args "pulse_times"),
        getArrReq (dictGet args "pulse_durations"),
        getArrReq (dictGet args "amplitudes"),
        getStrD (dictGet args "description") "square pulse train",
        getUnitsD (dictGet args "units") with
    | .ok st, .ok ts, .ok ds, .ok amps, .ok d, .ok u =>
      if ts.length = ds.length ∧ ds.length = amps.length then
        .ok (.mk (.seriesK ts ds amps) ⟨d, st, u, 0⟩ (seriesItems ts ds amps u))
      else
        .error "AssertionError"
    | .error e, _, _, _, _, _ => .error e
    | _, .error e, _, _, _, _ => .error e
    | _, _, .error e, _, _, _ => .error e
    | _, _, _, .error e, _, _ => .error e
    | _, _, _, _, .error e, _ => .error e
    | _, _, _, _, _, .error e => .error e
  else if ty = "Ramp" then
    match getNumReq (dictGet args "start_time"),
        getNumReq (dictGet args "duration"),
        getNumReq (dictGet args "slope"),
        getNumD (dictGet args "offset") 0,
        getStrD (dictGet args "description") "linear ramp",
        getUnitsD (dictGet args "units") with
    | .ok st, .ok dur, .ok sl, .ok ofv, .ok d, .ok u =>
      .ok (.mk (.rampK sl ofv) ⟨d, st, u, dur⟩ [])
    | .error e, _, _, _, _, _ => .error e
    | _, .error e, _, _, _, _ => .error e
    | _, _, .error e, _, _, _ => .error e
    | _, _, _, .error e, _, _ => .error e
    | _, _, _, _, .error e, _ => .error e
    | _, _, _, _, _, .error e => .error e
  else if ty = "Sine" then
    match getNumReq (dictGet args "start_time"),
        getNumReq (dictGet args "duration"),
        getNumReq (dictGet args "frequency"),
        getNumReq (dictGet args "amplitude"),
        getNumD (dictGet args "phase") 0,
        getNumD (dictGet args "offset") 0,
        getStrD (dictGet args "description") "sine wave",
        getUnitsD (dictGet args "units") with
    | .ok st, .ok dur, .ok fr, .ok a, .ok ph, .ok ofv, .ok d, .ok u =>
      .ok (.mk (.sineK fr a ph ofv) ⟨d, st, u, dur⟩ [])
    | .error e, _, _, _, _, _, _, _ => .error e
    | _, .error e, _, _, _, _, _, _ => .error e
    | _, _, .error e, _, _, _, _, _ => .error e
    | _, _, _, .error e, _, _, _, _ => .error e
    | _, _, _, _, .error e, _, _, _ => .error e
    | _, _, _, _, _, .error e, _, _ => .error e
    | _, _, _, _, _, _, .error e, _ => .error e
    | _, _, _, _, _, _, _, .error e => .error e
  else if ty = "Chirp" then
    match getNumReq (dictGet args "start_time"),
        getNumReq (dictGet args "duration"),
        getNumReq (dictGet args "start_frequency"),
        getNumReq (dictGet args "end_frequency"),
        getNumReq (dictGet args "amplitude"),
        getNumD (dictGet args "phase") 0,
        getNumD (dictGet args "offset") 0,
        getStrD (dictGet args "description") "frequency chirp",
        getUnitsD (dictGet args "units") with
    | .ok st, .ok dur, .ok f0, .ok f1, .ok a, .ok ph, .ok ofv, .ok d, .ok u =>
      .ok (.mk (.chirpK f0 f1 a ph ofv) ⟨d, st, u, dur⟩ [])
    | .error e, _, _, _, _, _, _, _, _ => .error e
    | _, .error e, _, _, _, _, _, _, _ => .error e
    | _, _, .error e, _, _, _, _, _, _ => .error e
    | _, _, _, .error e, _, _, _, _, _ => .error e
    | _, _, _, _, .error e, _, _, _, _ => .error e
    | _, _, _, _, _, .error e, _, _, _ => .error e
    | _, _, _, _, _, _, .error e, _, _ => .error e
    | _, _, _, _, _, _, _, .error e, _ => .error e
    | _, _, _, _, _, _, _, _, .error e => .error e
  else if ty = "Psp" then
    match getNumReq (dictGet args "start_time"),
        getNumReq (dictGet args "rise_time"),
        getNumReq (dictGet args "decay_tau"),
        getNumReq (dictGet args "amplitude"),
        getNumD (dictGet args "rise_power") 2,
        getStrD (dictGet args "description") "frequency chirp",
        getUnitsD (dictGet args "units") with
    | .ok st, .ok rt, .ok dtau, .ok a, .ok rp, .ok d, .ok u =>
      .ok (.mk (.pspK rt dtau a rp) ⟨d, st, u, 0⟩ [])
    | .error e, _, _, _, _, _, _ => .error e
    | _, .error e, _, _, _, _, _ => .error e
    | _, _, .error e, _, _, _, _ => .error e
    | _, _, _, .error e, _, _, _ => .error e
    | _, _, _, _, .error e, _, _ => .error e
    | _, _, _, _, _, .error e, _ => .error e
    | _, _, _, _, _, _, .error e => .error e
  else
    .error ("Unknown stimulus class " ++ ty)

mutual

/-- `Stimulus.load`: resolve the type tag in the registry, recursively load
the children, then construct (passing the children only when nonempty). -/
def loadStim : SaveRec → Except String Stim1
  | .mk ty args items =>
    if ty ∈ knownTags then
      match loadItems items with
      | .error e => .error e
      | .ok children => constructStim ty args children
    else
      .error ("Unknown stimulus class " ++ ty)

/-- `[cls.load(item_state) for item_state in state.get(items)]`. -/
def loadItems : List SaveRec → Except String (List Stim1)
  | [] => .ok []
  | r :: rest =>
    match loadStim r with
    | .error e => .error e
    | .ok s =>
      match loadItems rest with
      | .error e => .error e
      | .ok ss => .ok (s :: ss)

end

/-- `load(save(x))`. -/
def stimRoundTrip (s : Stim1) : Except String Stim1 :=
  match saveStim s with
  | .error e => .error e
  | .ok rec1 => loadStim rec1

/-- The `for name in self._attributes: if getattr(self, name) != getattr(other,
name): return False` loop of `Stimulus.__eq__` (AttributeErrors propagate). -/
def attrsEq (a b : Stim1) : List String → Except String Bool
  | [] => .ok true
  | name :: rest =>
    match a.getattrJ name, b.getattrJ name with
    | some va, some vb => if va = vb then attrsEq a b rest else .ok false
    | _, _ => .error ("AttributeError: " ++ name)

mutual

/-- `Stimulus.__eq__`: same type tag, same item count, equal `_attributes`
values, children pairwise equal. -/
def stimEq : Stim1 → Stim1 → Except String Bool
  | .mk k f its, .mk k2 f2 its2 =>
    if k.typeTag ≠ k2.typeTag then .ok false
    else if its.length ≠ its2.length then .ok false
    else
      match attrsEq (.mk k f its) (.mk k2 f2 its2) k.attrNames with
      | .error e => .error e
      | .ok false => .ok false
      | .ok true => stimEqList its its2

/-- The pairwise child comparison of `Stimulus.__eq__`. -/
def stimEqList : List Stim1 → List Stim1 → Except String Bool
  | [], _ => .ok true
  | _ :: _, [] => .ok true
  | a :: as2, b :: bs =>
    match stimEq a b with
    | .error e => .error e
    | .ok false => .ok false
    | .ok true => stimEqList as2 bs

end

mutual

/-- The well-formedness class of the amended C1: `Ramp` excluded (its `save`
raises), only base `Stimulus` nodes carry manually attached children (leaf
variants have no `items` constructor parameter, so a saved record with
children under them cannot be reloaded), and train/series carry exactly their
auto-generated children. -/
def WFStim : Stim1 → Prop
  | .mk k f items =>
    match k with
    | .base => WFList items
    | .lazyK => False
    | .offsetK _ => items = []
    | .pulseK _ _ => items = []
    | .trainK n pd a iv => items = trainItems n pd a iv f.units
    | .seriesK ts ds amps =>
      ts.length = ds.length ∧ ds.length = amps.length ∧
        items = seriesItems ts ds amps f.units
    | .rampK _ _ => False
    | .sineK _ _ _ _ => items = []
    | .chirpK _ _ _ _ _ => items = []
    | .pspK _ _ _ _ => items = []

def WFList : List Stim1 → Prop
  | [] => True
  | s :: rest => WFStim s ∧ WFList rest

end

/-- A concrete `Ramp` instance (a C1 failing input: `save` raises). -/
def rampExample : Stim1 :=
  .mk (.rampK 3 1) ⟨"linear ramp", 1, none, 2⟩ []

/-- A concrete `LazyLoadStimulus` instance (a C1 failing input: `save`
succeeds but `load` raises, the loader not being part of the record). -/
def lazyExample : Stim1 :=
  .mk .lazyK ⟨"stimulus", 0, none, 0⟩ []

def c1Tree : Stim1 :=
  .mk .base ⟨"stimulus", 0, some "A", 7⟩
    [.mk (.pulseK (-5) none) ⟨"square pulse", 1, some "A", 2⟩ [],
     .mk (.offsetK 3) ⟨"offset", 0, some "A", 0⟩ []]

noncomputable section

/-- `TSeries.index_at` over the real-valued idealization of float time math. -/
def indexAtR (t0 dt t : ℝ) : IndexMode → ℤ
  | .round => round ((t - t0) / dt)
  | .floor => ⌊(t - t0) / dt⌋
  | .ceil => ⌈(t - t0) / dt⌉

/-- `region.data[:] += g(j)` over the index window `[i0, i1)` of a real buffer
(`g` takes the absolute buffer index, so per-sample waveforms are expressible). -/
def addWindowR (l : List ℝ) (i0 i1 : ℕ) (g : ℕ → ℝ) : List ℝ :=
  l.mapIdx (fun j x => if i0 ≤ j ∧ j < i1 then x + g j else x)

/-- The waveform-variant data of a stimulus node over ℝ, covering every
evaluation override of the source: `Stimulus`, `Offset`, `SquarePulse`,
`Ramp`, `Sine`, `Chirp`, `Psp`. -/
inductive KindR
  | base
  | offsetR (amplitude : ℝ)
  | pulseR (duration amplitude : ℝ)
  | rampR (duration slope offsetVal : ℝ)
  | sineR (duration frequency amplitude phase offsetVal : ℝ)
  | chirpR (duration startFrequency endFrequency amplitude phase offsetVal : ℝ)
  | pspR (riseTime decayTau amplitude risePower : ℝ)

/-- A stimulus node over ℝ: variant kind, `start_time` relative to the
parent, and child items. -/
inductive StimR
  | mk (kind : KindR) (startTime : ℝ) (items : List StimR)

/-- `Chirp._kr`: the constants `(k, r)` with `r = 0` when the start frequency
is zero, `r = f1 / f0` otherwise, and `k = 2 π d f0 / ln r`. -/
def chirpKR (d f0 f1 : ℝ) : ℝ × ℝ :=
  let r : ℝ := if f0 = 0 then 0 else f1 / f0
  (2 * Real.pi * d * f0 / Real.log r, r)

/-- `Chirp.phase_at`: `phase - k + k * r^(t/d)`. -/
def chirpPhaseAt (d f0 f1 phase t : ℝ) : ℝ :=
  phase - (chirpKR d f0 f1).1 + (chirpKR d f0 f1).1 * (chirpKR d f0 f1).2 ^ (t / d)

/-- `Chirp.frequency_at`: `k ln(r) r^(t/d) / (2 π d)`. -/
def chirpFrequencyAt (d f0 f1 t : ℝ) : ℝ :=
  (chirpKR d f0 f1).1 * Real.log (chirpKR d f0 f1).2 *
    (chirpKR d f0 f1).2 ^ (t / d) / (2 * Real.pi * d)

/-- Modelled from the spec: the curve-shape collaborator consumed by `Psp`
(`neuroanalysis.fitting.psp.Psp.psp_func`, whose source is not part of this
repository): a pure function of the sample time point, a time offset and the
shape parameters, returning the product-of-exponentials PSP shape. -/
def pspFunc (t x0 riseTime decayTau amp risePower : ℝ) : ℝ :=
  if t < x0 then 0
  else amp * (1 - Real.exp (-(t - x0) / riseTime)) ^ risePower *
    Real.exp (-(t - x0) / decayTau)

/-- `duration` over ℝ: 0 for `Stimulus`/`Offset`, the declared duration for
the windowed variants, `15 * max(rise_time, decay_tau)` for `Psp`. -/
def KindR.durationR : KindR → ℝ
  | .base => 0
  | .offsetR _ => 0
  | .pulseR d _ => d
  | .rampR d _ _ => d
  | .sineR d _ _ _ _ => d
  | .chirpR d _ _ _ _ _ => d
  | .pspR rt dtau _ _ => 15 * max rt dtau

mutual

/-- The body of `Stimulus.eval` and of the variant overrides over ℝ, acting
on the shared data buffer: the children are evaluated into the buffer first
(`Stimulus.eval`), then the variant adds its own waveform over its window
with `+=`.  `Sine`/`Chirp` perform two `+=` passes over the same window
(offset, then sinusoid), which is one windowed add of the sum. -/
def StimR.evalIntoR (mode : IndexMode) (t0 dt : ℝ) : StimR → ℝ → List ℝ → List ℝ
  | .mk k st items, gbase, data =>
    let gst := gbase + st
    let d1 := evalItemsIntoR mode t0 dt items gst data
    let n := d1.length
    let i0 := pySliceIdx n (indexAtR t0 dt gst mode)
    match k with
    | .base => d1
    | .offsetR a => addWindowR d1 i0 n (fun _ => a)
    | .pulseR dur a =>
      addWindowR d1 i0 (pySliceIdx n (indexAtR t0 dt (gst + dur) mode)) (fun _ => a)
    | .rampR dur sl ofv =>
      addWindowR d1 i0 (pySliceIdx n (indexAtR t0 dt (gst + dur) mode))
        (fun j => ((j : ℝ) - (i0 : ℝ)) * sl + ofv)
    | .sineR dur fr a ph ofv =>
      addWindowR d1 i0 (pySliceIdx n (indexAtR t0 dt (gst + dur) mode))
        (fun j => ofv + a * Real.sin (ph + (t0 + (j : ℝ) * dt - gst) * (2 * Real.pi * fr)))
    | .chirpR dur f0 f1 a ph ofv =>
      addWindowR d1 i0 (pySliceIdx n (indexAtR t0 dt (gst + dur) mode))
        (fun j => ofv + a * Real.sin (chirpPhaseAt dur f0 f1 ph (t0 + (j : ℝ) * dt - gst)))
    | .pspR rt dtau a rp =>
      addWindowR d1 i0 (pySliceIdx n (indexAtR t0 dt (gst + 15 * max rt dtau) mode))
        (fun j => pspFunc (t0 + (j : ℝ) * dt) gst rt dtau a rp)

/-- `for item in self.items: item.eval(trace=trace, index_mode=index_mode)`. -/
def evalItemsIntoR (mode : IndexMode) (t0 dt : ℝ) :
    List StimR → ℝ → List ℝ → List ℝ
  | [], _, data => data
  | it :: rest, gbase, data =>
    evalItemsIntoR mode t0 dt rest gbase (StimR.evalIntoR mode t0 dt it gbase data)

end

mutual

/-- The body of `Stimulus.mask` and of the variant overrides over ℝ:
children first, then the variant marks `True` over its window (`Offset`
marks from its start point to the end of the buffer). -/
def StimR.maskIntoR (mode : IndexMode) (t0 dt : ℝ) : StimR → ℝ → List Bool → List Bool
  | .mk k st items, gbase, data =>
    let gst := gbase + st
    let d1 := maskItemsIntoR mode t0 dt items gst data
    let n := d1.length
    let i0 := pySliceIdx n (indexAtR t0 dt gst mode)
    match k with
    | .base => d1
    | .offsetR _ => markWindow d1 i0 n
    | .pulseR dur _ =>
      markWindow d1 i0 (pySliceIdx n (indexAtR t0 dt (gst + dur) mode))
    | .rampR dur _ _ =>
      markWindow d1 i0 (pySliceIdx n (indexAtR t0 dt (gst + dur) mode))
    | .sineR dur _ _ _ _ =>
      markWindow d1 i0 (pySliceIdx n (indexAtR t0 dt (gst + dur) mode))
    | .chirpR dur _ _ _ _ _ =>
      markWindow d1 i0 (pySliceIdx n (indexAtR t0 dt (gst + dur) mode))
    | .pspR rt dtau _ _ =>
      markWindow d1 i0 (pySliceIdx n (indexAtR t0 dt (gst + 15 * max rt dtau) mode))

/-- `for item in self.items: item.mask(trace=trace, index_mode=index_mode)`. -/
def maskItemsIntoR (mode : IndexMode) (t0 dt : ℝ) :
    List StimR → ℝ → List Bool → List Bool
  | [], _, data => data
  | it :: rest, gbase, data =>
    maskItemsIntoR mode t0 dt rest gbase (StimR.maskIntoR mode t0 dt it gbase data)

end

/-- The pointwise amount a single variant adds at absolute sample `j` of an
`n`-sample buffer (zero outside the variant window): the additive-form
reading of each `eval` override. -/
def KindR.contribK (k : KindR) (mode : IndexMode) (t0 dt gst : ℝ) (n j : ℕ) : ℝ :=
  let i0 := pySliceIdx n (indexAtR t0 dt gst mode)
  match k with
  | .base => 0
  | .offsetR a => if i0 ≤ j ∧ j < n then a else 0
  | .pulseR dur a =>
    if i0 ≤ j ∧ j < pySliceIdx n (indexAtR t0 dt (gst + dur) mode) then a else 0
  | .rampR dur sl ofv =>
    if i0 ≤ j ∧ j < pySliceIdx n (indexAtR t0 dt (gst + dur) mode) then
      ((j : ℝ) - (i0 : ℝ)) * sl + ofv else 0
  | .sineR dur fr a ph ofv =>
    if i0 ≤ j ∧ j < pySliceIdx n (indexAtR t0 dt (gst + dur) mode) then
      ofv + a * Real.sin (ph + (t0 + (j : ℝ) * dt - gst) * (2 * Real.pi * fr)) else 0
  | .chirpR dur f0 f1 a ph ofv =>
    if i0 ≤ j ∧ j < pySliceIdx n (indexAtR t0 dt (gst + dur) mode) then
      ofv + a * Real.sin (chirpPhaseAt dur f0 f1 ph (t0 + (j : ℝ) * dt - gst)) else 0
  | .pspR rt dtau a rp =>
    if i0 ≤ j ∧ j < pySliceIdx n (indexAtR t0 dt (gst + 15 * max rt dtau) mode) then
      pspFunc (t0 + (j : ℝ) * dt) gst rt dtau a rp else 0

/-- Whether a single variant marks sample `j` of an `n`-sample buffer. -/
def KindR.markK (k : KindR) (mode : IndexMode) (t0 dt gst : ℝ) (n j : ℕ) : Bool :=
  let i0 := pySliceIdx n (indexAtR t0 dt gst mode)
  match k with
  | .base => false
  | .offsetR _ => decide (i0 ≤ j ∧ j < n)
  | .pulseR dur _ =>
    decide (i0 ≤ j ∧ j < pySliceIdx n (indexAtR t0 dt (gst + dur) mode))
  | .rampR dur _ _ =>
    decide (i0 ≤ j ∧ j < pySliceIdx n (indexAtR t0 dt (gst + dur) mode))
  | .sineR dur _ _ _ _ =>
    decide (i0 ≤ j ∧ j < pySliceIdx n (indexAtR t0 dt (gst + dur) mode))
  | .chirpR dur _ _ _ _ _ =>
    decide (i0 ≤ j ∧ j < pySliceIdx n (indexAtR t0 dt (gst + dur) mode))
  | .pspR rt dtau _ _ =>
    decide (i0 ≤ j ∧ j < pySliceIdx n (indexAtR t0 dt (gst + 15 * max rt dtau) mode))

mutual

/-- The total amount a subtree adds at sample `j`: its own variant
contribution plus the sum over its children (the additive reading of the
whole traversal). -/
def totalContrib (mode : IndexMode) (t0 dt : ℝ) (n : ℕ) : StimR → ℝ → ℕ → ℝ
  | .mk k st items, gbase, j =>
    totalContribList mode t0 dt n items (gbase + st) j +
      KindR.contribK k mode t0 dt (gbase + st) n j

def totalContribList (mode : IndexMode) (t0 dt : ℝ) (n : ℕ) :
    List StimR → ℝ → ℕ → ℝ
  | [], _, _ => 0
  | s :: rest, gbase, j =>
    totalContrib mode t0 dt n s gbase j + totalContribList mode t0 dt n rest gbase j

end

mutual

/-- Whether any node of a subtree marks sample `j`. -/
def totalMark (mode : IndexMode) (t0 dt : ℝ) (n : ℕ) : StimR → ℝ → ℕ → Bool
  | .mk k st items, gbase, j =>
    totalMarkList mode t0 dt n items (gbase + st) j ||
      KindR.markK k mode t0 dt (gbase + st) n j

def totalMarkList (mode : IndexMode) (t0 dt : ℝ) (n : ℕ) :
    List StimR → ℝ → ℕ → Bool
  | [], _, _ => false
  | s :: rest, gbase, j =>
    totalMark mode t0 dt n s gbase j || totalMarkList mode t0 dt n rest gbase j

end

end

mutual

/-- Two stimulus trees related by reordering children (at any depth): the
nodes agree in kind and start time, and the child lists match up to a
permutation of recursively related children. -/
inductive PermTree : StimR → StimR → Prop
  | node (k : KindR) (st : ℝ) {l1 l1a l2 : List StimR} :
      PermForest l1 l1a → l1a.Perm l2 → PermTree (.mk k st l1) (.mk k st l2)

/-- Pointwise `PermTree` over two child lists. -/
inductive PermForest : List StimR → List StimR → Prop
  | nil : PermForest [] []
  | cons {a b : StimR} {l1 l2 : List StimR} :
      PermTree a b → PermForest l1 l2 → PermForest (a :: l1) (b :: l2)

end

/-- Two sibling leaves used to exhibit a concrete child permutation. -/
noncomputable def c5TreeA : StimR :=
  .mk .base 0 [.mk (.offsetR 1) 0 [], .mk (.pulseR 2 3) 1 []]

noncomputable def c5TreeB : StimR :=
  .mk .base 0 [.mk (.pulseR 2 3) 1 [], .mk (.offsetR 1) 0 []]

noncomputable section

open scoped Classical

/-- `np.diff` over ℝ. -/
def npDiffR (l : List ℝ) : List ℝ :=
  (l.zip l.tail).map (fun p => p.2 - p.1)

/-- `np.mean` over ℝ (`0/0 = 0` for the empty array's nan). -/
def meanR (l : List ℝ) : ℝ :=
  l.sum / (l.length : ℝ)

/-- `np.std` over ℝ: population standard deviation (`ddof = 0`), the square
root of the mean squared deviation from the mean. -/
def stdR (l : List ℝ) : ℝ :=
  Real.sqrt (meanR (l.map (fun x => (x - meanR l) ^ 2)))

/-- Python indexing with negative wrap-around (`sdiff[c-1]` at `c = 0` reads
the last element). -/
def pyGetR (l : List ℝ) (i : ℤ) : ℝ :=
  if i < 0 then l.getD ((l.length : ℤ) + i).toNat 0 else l.getD i.toNat 0

/-- A `SquarePulse` record returned by the noisy detector (`units` is copied
from the trace unchanged and is omitted). -/
structure PulseR where
  startTime : ℝ
  duration : ℝ
  amplitude : ℝ

/-- One iteration of the `for i, start in enumerate(changes)` loop of
`find_noisy_square_pulses`, on the accumulator `(pulses, stop)`: a boundary
at or before the carried `stop` of an already-open pulse is skipped (only
when some pulse has been appended); otherwise the segment runs to the next
boundary (or the end of the trace), its amplitude is the segment mean minus
the baseline mean, and it is kept only if strictly longer than
`min_duration` with absolute amplitude strictly above `min_amplitude`. -/
def noisyStep (data : List ℝ) (t0 dt blMean : ℝ) (changes : List ℕ) (n : ℕ)
    (minDuration minAmplitude : ℝ) (acc : List PulseR × ℕ) (p : ℕ × ℕ) :
    List PulseR × ℕ :=
  if acc.1.length > 0 ∧ acc.2 ≥ p.2 then acc
  else
    let stop2 := if p.1 + 1 < changes.length then changes.getD (p.1 + 1) 0 else n
    let dur := ((stop2 : ℝ) - (p.2 : ℝ)) * dt
    let amp := meanR ((data.take stop2).drop p.2) - blMean
    if dur > minDuration ∧ |amp| > minAmplitude then
      (acc.1 ++ [⟨t0 + (p.2 : ℝ) * dt, dur, amp⟩], stop2)
    else (acc.1, stop2)

/-- `find_noisy_square_pulses`: baseline defaults to the first 200 samples;
threshold is `std(baseline) * std_threshold`; boundary candidates are the
first-difference indices over `|threshold|`, debounced to those whose
predecessor difference (with Python wrap-around at index 0) is below the
threshold, shifted by one to the first sample at the new value; then the
enumerate loop assembles and filters the segments. -/
def findNoisySquarePulses (data : List ℝ) (t0 dt : ℝ)
    (baseline : Option (List ℝ)) (stdThreshold : ℝ)
    (minDuration : ℝ := 0) (minAmplitude : ℝ := 0) : List PulseR :=
  let bl := baseline.getD (data.take 200)
  let thr := stdR bl * stdThreshold
  let sdiff := npDiffR (data.map (fun x => x - meanR bl))
  let changes0 := (List.range sdiff.length).filter
    (fun c => decide (|sdiff.getD c 0| > thr))
  let changes := changes0.filterMap (fun (c : ℕ) =>
    if |pyGetR sdiff ((c : ℤ) - 1)| < thr ∧ |sdiff.getD c 0| > thr then
      some (c + 1)
    else none)
  (changes.enum.foldl
    (noisyStep data t0 dt (meanR bl) changes data.length minDuration minAmplitude)
    ([], 0)).1

end

/-- What C7 asserts of every returned pulse: strict minimum-duration and
minimum-amplitude filtering, and amplitude provenance (segment mean minus
baseline mean over some index window of the trace). -/
def SoundPulse (data : List ℝ) (t0 dt blMean minD minA : ℝ) (q : PulseR) : Prop :=
  q.duration > minD ∧ |q.amplitude| > minA ∧
    ∃ start stop : ℕ, q.startTime = t0 + (start : ℝ) * dt ∧
      q.duration = ((stop : ℝ) - (start : ℝ)) * dt ∧
      q.amplitude = meanR ((data.take stop).drop start) - blMean

-- ===== THEOREMS =====

theorem headD_eq_getD (l : List ℚ) : l.headD 0 = l.getD 0 0 := by
  cases l <;> rfl

theorem npDiff_length (l : List ℚ) : (npDiff l).length = l.length - 1 := by
  simp [npDiff, List.length_zip, List.length_tail]

theorem npDiff_getD (l : List ℚ) (j : ℕ) (h : j + 1 < l.length) :
    (npDiff l).getD j 0 = l.getD (j + 1) 0 - l.getD j 0 := by
  have hj : j < (npDiff l).length := by rw [npDiff_length]; omega
  have hz : j < (l.zip l.tail).length := by
    simpa [npDiff] using hj
  rw [List.getD_eq_getElem _ _ hj, List.getD_eq_getElem _ _ (by omega),
    List.getD_eq_getElem _ _ (by omega : j < l.length)]
  simp [npDiff, List.getElem_map, List.getElem_zip, List.getElem_tail]

/-- Filtering `range m` by a predicate that holds exactly at `b1 < b2 < m`
yields `[b1, b2]`. -/
theorem filter_range_pair {m b1 b2 : ℕ} {p : ℕ → Bool} (h12 : b1 < b2)
    (h2m : b2 < m) (hp : ∀ j, j < m → (p j = true ↔ (j = b1 ∨ j = b2))) :
    (List.range m).filter p = [b1, b2] := by
  have e1 : List.range' 0 b1 ++ List.range' b1 (b2 - b1) = List.range' 0 b2 := by
    have := List.range'_append 0 b1 (b2 - b1) 1
    simp only [Nat.one_mul, Nat.zero_add] at this
    rw [this]; congr 1; omega
  have e2 : List.range' 0 b2 ++ List.range' b2 (m - b2) = List.range' 0 m := by
    have := List.range'_append 0 b2 (m - b2) 1
    simp only [Nat.one_mul, Nat.zero_add] at this
    rw [this]; congr 1; omega
  have hdecomp : List.range m =
      (List.range' 0 b1 ++ List.range' b1 (b2 - b1)) ++ List.range' b2 (m - b2) := by
    rw [List.range_eq_range', e1, e2]
  have hstep1 : b2 - b1 = (b2 - b1 - 1) + 1 := by omega
  have hstep2 : m - b2 = (m - b2 - 1) + 1 := by omega
  rw [hdecomp, List.filter_append, List.filter_append]
  have f1 : (List.range' 0 b1).filter p = [] := by
    rw [List.filter_eq_nil_iff]
    intro a ha
    rw [List.mem_range'_1] at ha
    have := hp a (by omega)
    intro hpa
    rcases (this.mp hpa) with h | h <;> omega
  have f2 : (List.range' b1 (b2 - b1)).filter p = [b1] := by
    rw [hstep1, List.range'_succ]
    rw [List.filter_cons_of_pos (by exact (hp b1 (by omega)).mpr (Or.inl rfl))]
    have : (List.range' (b1 + 1) (b2 - b1 - 1)).filter p = [] := by
      rw [List.filter_eq_nil_iff]
      intro a ha
      rw [List.mem_range'_1] at ha
      have := hp a (by omega)
      intro hpa
      rcases (this.mp hpa) with h | h <;> omega
    rw [this]
  have f3 : (List.range' b2 (m - b2)).filter p = [b2] := by
    rw [hstep2, List.range'_succ]
    rw [List.filter_cons_of_pos (by exact (hp b2 (by omega)).mpr (Or.inr rfl))]
    have : (List.range' (b2 + 1) (m - b2 - 1)).filter p = [] := by
      rw [List.filter_eq_nil_iff]
      intro a ha
      rw [List.mem_range'_1] at ha
      have := hp a (by omega)
      intro hpa
      rcases (this.mp hpa) with h | h <;> omega
    rw [this]
  rw [f1, f2, f3]
  rfl

/-- Detection on a trace whose data is a single-step window `[i0, i1)` at
height `a` over baseline 0 finds exactly that pulse. -/
theorem findSquarePulses_step (tr : TSQ) (n i0 i1 : ℕ) (a : ℚ)
    (hlen : tr.data.length = n)
    (hdata : ∀ j, j < n → tr.data.getD j 0 = if i0 ≤ j ∧ j < i1 then a else 0)
    (h0 : 0 < i0) (h01 : i0 < i1) (h1n : i1 < n) (ha : a ≠ 0) :
    findSquarePulses tr none =
      [⟨tr.timeAt i0, ((i1 : ℚ) - (i0 : ℚ)) * tr.dt, a, 0, tr.units⟩] := by
  have hbl : tr.data.headD 0 = 0 := by
    rw [headD_eq_getD, hdata 0 (by omega), if_neg (by omega)]
  have hsd : (npDiff tr.data).length = n - 1 := by rw [npDiff_length, hlen]
  have key : ∀ j, j < n - 1 →
      ((decide ((npDiff tr.data).getD j 0 ≠ 0)) = true ↔ (j = i0 - 1 ∨ j = i1 - 1)) := by
    intro j hj
    rw [decide_eq_true_eq, npDiff_getD _ _ (by omega), hdata (j + 1) (by omega),
      hdata j (by omega)]
    constructor
    · intro hne
      by_contra hcon
      push_neg at hcon
      apply hne
      split_ifs with h1 h2 h2 <;> first | (exfalso; omega) | ring
    · intro hor
      rcases hor with h | h
      · rw [if_pos (show i0 ≤ j + 1 ∧ j + 1 < i1 by omega),
          if_neg (show ¬(i0 ≤ j ∧ j < i1) by omega)]
        simpa using ha
      · rw [if_neg (show ¬(i0 ≤ j + 1 ∧ j + 1 < i1) by omega),
          if_pos (show i0 ≤ j ∧ j < i1 by omega)]
        simpa using ha
  have hfilter : ((List.range (npDiff tr.data).length).filter
      (fun j => decide ((npDiff tr.data).getD j 0 ≠ 0))) = [i0 - 1, i1 - 1] := by
    rw [hsd]
    exact filter_range_pair (by omega) (by omega) (fun j hj => key j hj)
  have hchanges : ((List.range (npDiff tr.data).length).filter
      (fun j => decide ((npDiff tr.data).getD j 0 ≠ 0))).map (· + 1) = [i0, i1] := by
    rw [hfilter]
    simp
    constructor <;> omega
  have hI0 : tr.data.getD i0 0 = a := by rw [hdata i0 (by omega)]; simp [h01]
  have hI1 : tr.data.getD i1 0 = 0 := by rw [hdata i1 (by omega)]; simp
  simp only [findSquarePulses, hchanges, hbl]
  simp only [List.enum, List.enumFrom, List.filterMap_cons, hI0, hI1]
  rw [if_neg (by simpa using ha), if_pos (by simp)]
  simp [hlen]

/-- `Stimulus.eval` of a single grid-aligned `SquarePulse` inside a base
`Stimulus` produces the expected step buffer. -/
theorem eval_single_pulse (n : ℕ) (d a : ℚ) (i0 i1 : ℕ) (hd : d ≠ 0)
    (hi0 : i0 ≤ n) (hi1 : i1 ≤ n) :
    StimQ.eval (.mk .base 0 [.mk (.pulse ((i1 : ℚ) * d - (i0 : ℚ) * d) a)
        ((i0 : ℚ) * d) []]) none (some n) (some d) none none none .round =
    .ok ⟨addWindow (List.replicate n 0) i0 i1 a, 0, d, none⟩ := by
  simp only [StimQ.eval, makeEvalTrace, mkTSeries, StimQ.evalInto, evalItemsInto,
    TSer.indexAt, List.length_replicate]
  simp only [and_self, if_true, Option.getD_some, zero_add, sub_zero]
  have e0 : ((i0 : ℚ) * d) / d = ((i0 : ℕ) : ℚ) := by field_simp
  have e1 : ((i0 : ℚ) * d + ((i1 : ℚ) * d - (i0 : ℚ) * d)) / d = ((i1 : ℕ) : ℚ) := by
    field_simp
  rw [e0, e1, round_natCast, round_natCast]
  simp [pySliceIdx, Int.toNat_natCast, Nat.min_eq_left hi0, Nat.min_eq_left hi1]
  rw [if_neg (by omega : ¬((i0 : ℤ) < 0)), if_neg (by omega : ¬((i1 : ℤ) < 0))]

theorem addWindow_length (l : List ℚ) (i0 i1 : ℕ) (v : ℚ) :
    (addWindow l i0 i1 v).length = l.length := by
  simp [addWindow, List.length_mapIdx]

theorem addWindow_replicate_getD (n i0 i1 : ℕ) (v : ℚ) (j : ℕ) (hj : j < n) :
    (addWindow (List.replicate n 0) i0 i1 v).getD j 0 =
      if i0 ≤ j ∧ j < i1 then v else 0 := by
  have hj2 : j < (addWindow (List.replicate n 0) i0 i1 v).length := by
    rw [addWindow_length, List.length_replicate]; exact hj
  rw [List.getD_eq_getElem _ _ hj2]
  have hj3 : j < (List.replicate n (0 : ℚ)).length := by
    rw [List.length_replicate]; exact hj
  show (List.mapIdx _ _).get ⟨j, _⟩ = _
  rw [List.get_mapIdx _ _ j hj3]
  simp [List.getElem_replicate]

/-- Detection on a constant trace yields no pulses. -/
theorem findSquarePulses_const (tr : TSQ) (c : ℚ)
    (hdata : ∀ j, j < tr.data.length → tr.data.getD j 0 = c) :
    findSquarePulses tr none = [] := by
  have hch : ((List.range (npDiff tr.data).length).filter
      (fun j => decide ((npDiff tr.data).getD j 0 ≠ 0))) = [] := by
    rw [List.filter_eq_nil_iff]
    intro j hj
    rw [List.mem_range, npDiff_length] at hj
    simp only [decide_eq_true_eq, not_not]
    rw [npDiff_getD _ _ (by omega), hdata (j + 1) (by omega), hdata j (by omega)]
    exact sub_self c
  simp only [findSquarePulses]
  rw [hch]
  rfl

/-- C3 (amended): evaluating a single grid-aligned, strictly interior,
nonzero-amplitude `SquarePulse` onto an `n`-point noise-free trace with step
`d` starting at `t0 = 0`, then running `find_square_pulses`, recovers exactly
one pulse whose start time, duration and amplitude exactly match the original
pulse's declared parameters. -/
theorem c3_single_pulse_detection (n i0 i1 : ℕ) (d a : ℚ) (hd : d ≠ 0)
    (h0 : 0 < i0) (h01 : i0 < i1) (h1n : i1 < n) (ha : a ≠ 0) :
    (StimQ.eval (.mk .base 0 [.mk (.pulse ((i1 : ℚ) * d - (i0 : ℚ) * d) a)
        ((i0 : ℚ) * d) []]) none (some n) (some d) none none none .round).map
      (fun tr => findSquarePulses tr none) =
    .ok [⟨(i0 : ℚ) * d, ((i1 : ℚ) - (i0 : ℚ)) * d, a, 0, none⟩] := by
  rw [eval_single_pulse n d a i0 i1 hd (by omega) (by omega)]
  simp only [Except.map]
  congr 1
  have hstep := findSquarePulses_step ⟨addWindow (List.replicate n 0) i0 i1 a, 0, d, none⟩
    n i0 i1 a (by rw [addWindow_length, List.length_replicate])
    (fun j hj => addWindow_replicate_getD n i0 i1 a j hj) h0 h01 h1n ha
  rw [hstep]
  simp [TSer.timeAt]

/-- C3 witness: the spec's concrete instance - a SquarePulse with start_time
0.01 s, duration 0.01 s, amplitude -50e-12, evaluated onto a 1000-sample trace
with dt 0.001 s and t0 = 0, yields exactly one detected pulse with start_time
0.01, duration 0.01, amplitude -50e-12. -/
theorem c3_witness :
    (StimQ.eval (.mk .base 0 [.mk (.pulse (1/100) (-50e-12)) (1/100) []])
        none (some 1000) (some (1/1000)) none none none .round).map
      (fun tr => findSquarePulses tr none) =
    .ok [⟨1/100, 1/100, -50e-12, 0, none⟩] := by
  have h := c3_single_pulse_detection 1000 10 20 (1/1000) (-50e-12) (by norm_num)
    (by norm_num) (by norm_num) (by norm_num) (by norm_num)
  norm_num at h ⊢
  exact h

/-- C3 counterexample: the claim's universal clause fails - a known SquarePulse
list (one pulse of amplitude 0, start 1, duration 2) evaluated noise-free onto
a 4-sample trace yields a trace on which `find_square_pulses` returns no pulse
at all, not one pulse per evaluated pulse. -/
theorem c3_counterexample :
    (StimQ.eval (.mk .base 0 [.mk (.pulse 2 0) 1 []]) none (some 4) (some 1)
        none none none .round).map (fun tr => (findSquarePulses tr none).length) =
    .ok 0 := by
  have he := eval_single_pulse 4 1 0 1 3 (by norm_num) (by norm_num) (by norm_num)
  norm_num at he
  rw [he]
  simp only [Except.map]
  have hz : ∀ j, j < (addWindow (List.replicate 4 0) 1 3 0).length →
      (addWindow (List.replicate 4 0) 1 3 0).getD j 0 = 0 := by
    intro j hj
    rw [addWindow_length, List.length_replicate] at hj
    rw [addWindow_replicate_getD 4 1 3 0 j hj]
    simp
  rw [findSquarePulses_const ⟨addWindow (List.replicate 4 0) 1 3 0, 0, 1, none⟩ 0 hz]
  rfl

/-- Zipping a boundary list with its successors (closing the last run at `n`)
enumerates to the indexed-successor-lookup form used by the detection loop. -/
theorem zip_succ_enum (l : List ℕ) (n : ℕ) :
    (l.zip (l.drop 1 ++ [n])).enum =
    l.enum.map (fun p =>
      (p.1, (p.2, if p.1 + 1 < l.length then l.getD (p.1 + 1) 0 else n))) := by
  apply List.ext_getElem
  · simp [List.enum_length, List.length_zip, List.length_drop, List.length_append]
    omega
  · intro i h1 h2
    have hi : i < l.length := by
      simp [List.enum_length, List.length_zip, List.length_drop,
        List.length_append] at h1
      omega
    have hz : i < (l.zip (l.drop 1 ++ [n])).length := by
      simpa [List.enum_length] using h1
    rw [List.getElem_enum]
    rw [List.getElem_map, List.getElem_enum, List.getElem_zip]
    have hlen2 : i < (l.drop 1 ++ [n]).length := by
      simp [List.length_append, List.length_drop]
      omega
    have harm : (l.drop 1 ++ [n])[i] =
        if i + 1 < l.length then l.getD (i + 1) 0 else n := by
      by_cases hc : i + 1 < l.length
      · rw [List.getElem_append_left (by simp [List.length_drop]; omega),
          if_pos hc, List.getElem_drop, List.getD_eq_getElem _ _ (by omega)]
        congr 1
        omega
      · rw [List.getElem_append_right (by simp [List.length_drop]; omega),
          if_neg hc]
        simp
    rw [harm]

/-- A filterMap over an enumerated list whose results carry their index
produces strictly increasing carried indices, all at least the start index. -/
theorem chain_lt_filterMap_enumFrom {α β : Type} (f : ℕ × α → Option β)
    (num : β → ℕ) (hf : ∀ i a b, f (i, a) = some b → num b = i) :
    ∀ (l : List α) (k : ℕ),
      List.Chain' (· < ·) (((List.enumFrom k l).filterMap f).map num) ∧
      ∀ x ∈ ((List.enumFrom k l).filterMap f).map num, k ≤ x := by
  intro l
  induction l with
  | nil => intro k; simp
  | cons a t ih =>
    intro k
    rw [List.enumFrom_cons, List.filterMap_cons]
    cases hfa : f (k, a) with
    | none =>
      exact ⟨(ih (k + 1)).1,
        fun x hx => le_trans (by omega) ((ih (k + 1)).2 x hx)⟩
    | some b =>
      have hnum : num b = k := hf k a b hfa
      constructor
      · rw [List.map_cons, List.chain'_cons']
        refine ⟨fun y hy => ?_, (ih (k + 1)).1⟩
        have hmem := (ih (k + 1)).2 y (List.mem_of_mem_head? hy)
        omega
      · intro x hx
        rw [List.map_cons, List.mem_cons] at hx
        rcases hx with rfl | hx
        · omega
        · exact le_trans (by omega) ((ih (k + 1)).2 x hx)

/-- C8 (amended): in `find_square_pulses`, each run between consecutive
first-difference boundaries whose starting value differs from baseline becomes
one SquarePulse with amplitude `value_at_start - baseline` and duration
`(next_boundary - start) * dt`; the returned `pulse_number`s equal the index
of each pulse's opening boundary in the boundary list, so they are strictly
increasing in detection order - but not necessarily consecutive. -/
theorem c8_run_decomposition (trace : TSQ) (baseline : Option ℚ) :
    findSquarePulses trace baseline = claimPulses trace baseline ∧
    List.Chain' (· < ·)
      ((findSquarePulses trace baseline).map (fun p => p.pulseNumber)) := by
  constructor
  · simp only [findSquarePulses, claimPulses]
    rw [zip_succ_enum, List.filterMap_map]
    rfl
  · simp only [findSquarePulses]
    rw [List.enum_eq_enumFrom]
    apply (chain_lt_filterMap_enumFrom _ PulseQ.pulseNumber ?_ _ 0).1
    intro i a b hb
    simp only at hb
    by_cases hamp : trace.data.getD a 0 - baseline.getD (trace.data.headD 0) = 0
    · rw [if_pos hamp] at hb
      cases hb
    · rw [if_neg hamp] at hb
      cases hb
      rfl

/-- C8 counterexample: on the trace [0,0,1,1,0,0,2,2,0,0] (dt = 1, t0 = 0),
`find_square_pulses` detects two pulses but numbers them 0 and 2 (the indices
of their opening boundaries among the four first-difference boundaries), not
consecutively 0 and 1 as the claim states. -/
theorem c8_counterexample :
    (findSquarePulses ⟨[0, 0, 1, 1, 0, 0, 2, 2, 0, 0], 0, 1, none⟩ none).map
      (fun p => p.pulseNumber) = [0, 2] := by
  have hdiff : npDiff [0, 0, 1, 1, 0, 0, 2, 2, 0, 0] =
      [0, 1, 0, -1, 0, 2, 0, -2, 0] := by
    norm_num [npDiff]
  norm_num [findSquarePulses, hdiff, List.range_succ, List.filter_append,
    TSer.timeAt, List.enum, List.enumFrom, List.filterMap_cons,
    List.getElem?_cons_succ, List.getElem?_cons_zero]

/-- C6: for both `eval` and `mask`, when none of a caller-supplied trace, an
explicit time array, or `n_pts` with `dt` or `sample_rate` is resolvable, the
call fails with a configuration error before producing any output; and when
neither `t0` nor a time array is given, the produced trace's start time
defaults to 0. -/
theorem c6_eval_mask_config (s : StimQ) (mode : IndexMode) :
    (∀ dt sr t0q, (StimQ.eval s none none dt sr t0q none mode).isOk = false ∧
      (StimQ.mask s none t0q none dt sr none mode).isOk = false) ∧
    (∀ n t0q, (StimQ.eval s none (some n) none none t0q none mode).isOk = false ∧
      (StimQ.mask s none t0q (some n) none none none mode).isOk = false) ∧
    (∀ n d, (StimQ.eval s none (some n) (some d) none none none mode).map
        (fun tr => tr.t0) = .ok 0 ∧
      (StimQ.mask s none none (some n) (some d) none none mode).map
        (fun tr => tr.t0) = .ok 0) ∧
    (∀ n r, (StimQ.eval s none (some n) none (some r) none none mode).map
        (fun tr => tr.t0) = .ok 0 ∧
      (StimQ.mask s none none (some n) none (some r) none mode).map
        (fun tr => tr.t0) = .ok 0) := by
  refine ⟨fun dt sr t0q => ⟨rfl, rfl⟩, fun n t0q => ⟨rfl, rfl⟩,
    fun n d => ⟨rfl, rfl⟩, fun n r => ⟨rfl, rfl⟩⟩

/-- C4 (code bug): for the composite `c4Example`, whose SquarePulse child ends
at global time 3, `total_global_end_time` correctly reports 3 (the subtree
maximum of `global_end_time`), but `total_duration` - documented as "the total
duration of this stimulus and all of its children" - returns
`global_end_time - global_start_time`, i.e. the node's own duration 0, not the
child-determined extent 3. -/
theorem totalGlobalEndTime_mk (gbase : ℚ) (k : KindQ) (st : ℚ)
    (items : List StimQ) :
    StimQ.totalGlobalEndTime gbase (.mk k st items) =
    (items.map (fun it => StimQ.totalGlobalEndTime (gbase + st) it)).foldl max
      (gbase + st + k.duration) := by
  rw [StimQ.totalGlobalEndTime]
  congr 1
  exact List.attach_map_coe items (fun it => StimQ.totalGlobalEndTime (gbase + st) it)

theorem c4_total_duration_bug :
    StimQ.totalDuration 0 c4Example = 0 ∧
    StimQ.totalGlobalEndTime 0 c4Example = 3 ∧
    StimQ.globalEndTime 0 (StimQ.mk (KindQ.pulse 2 1) 1 []) = 3 := by
  refine ⟨?_, ?_, ?_⟩
  · norm_num [StimQ.totalDuration, StimQ.globalEndTime, StimQ.globalStartTime,
      StimQ.duration, StimQ.kind, StimQ.startTime, KindQ.duration, c4Example]
  · rw [c4Example]
    norm_num [totalGlobalEndTime_mk, KindQ.duration]
  · norm_num [StimQ.globalEndTime, StimQ.globalStartTime, StimQ.duration,
      StimQ.kind, StimQ.startTime, KindQ.duration]

/-- Without structural aliasing, Python membership is plain list membership. -/
@[simp] theorem pyElem_noEqv (x : ℕ) (l : List ℕ) : pyElem noEqv x l ↔ x ∈ l := by
  simp [pyElem, noEqv]

/-- Without structural aliasing, `list.remove` erases the first occurrence of
the argument itself (ValueError when absent). -/
@[simp] theorem pyRemove_noEqv (l : List ℕ) (x : ℕ) :
    pyRemove noEqv l x = if x ∈ l then some (l.erase x) else none := by
  induction l with
  | nil => simp [pyRemove]
  | cons y rest ih =>
    by_cases hxy : x = y
    · subst hxy
      simp [pyRemove, List.erase_cons_head]
    · by_cases hm : x ∈ rest
      · simp [pyRemove, noEqv, hxy, ih, hm, List.erase_cons_tail,
          List.mem_cons, Ne.symm hxy]
      · simp [pyRemove, noEqv, hxy, ih, hm, List.mem_cons]

theorem setp_noop (f : ℕ) (s : TreeState) (x : ℕ) (p : Option ℕ)
    (h : s.parentOf x = p) : treeExec noEqv (f + 1) s (.setp x p) = some s := by
  simp [treeExec, h]

theorem rem_absent (f : ℕ) (s : TreeState) (self x : ℕ)
    (h : x ∉ s.itemsOf self) : treeExec noEqv (f + 1) s (.rem self x) = none := by
  simp [treeExec, h]

theorem setParent_noop (s : TreeState) (x : ℕ) (p : Option ℕ)
    (h : s.parentOf x = p) : setParent noEqv s x p = s := by
  rw [setParent, opFuel, show (12 : ℕ) = 11 + 1 from rfl, setp_noop 11 s x p h]
  rfl

/-- Reattaching a node with no previous parent: update the pointer and append
to the new parent's items. -/
theorem setp_from_none (f : ℕ) (s : TreeState) (x np : ℕ)
    (hold : s.parentOf x = none) (hmem : x ∉ s.itemsOf np) :
    treeExec noEqv (f + 3) s (.setp x (some np)) =
    some ⟨fun y => if y = x then some np else s.parentOf y,
      fun q => if q = np then s.itemsOf np ++ [x] else s.itemsOf q⟩ := by
  have h1 : treeExec noEqv (f + 3) s (.setp x (some np)) =
      treeExec noEqv (f + 2) (setParentField s x (some np)) (.app np x) := by
    simp [treeExec, hold, setParentField, hmem]
  have h2 : treeExec noEqv (f + 2) (setParentField s x (some np)) (.app np x) =
      treeExec noEqv (f + 1)
        (setItemsField (setParentField s x (some np)) np (s.itemsOf np ++ [x]))
        (.setp x (some np)) := by
    simp [treeExec, setParentField, setItemsField]
  rw [h1, h2, setp_noop f _ x (some np) (by simp [setItemsField, setParentField])]
  congr 1

/-- Detaching a node from its parent: clear the pointer and remove the node
from the old parent's items (whose retry-removal ValueError is swallowed). -/
theorem setp_to_none (f : ℕ) (s : TreeState) (x o : ℕ)
    (hold : s.parentOf x = some o) (hmem : x ∈ s.itemsOf o) :
    treeExec noEqv (f + 3) s (.setp x none) =
    some ⟨fun y => if y = x then none else s.parentOf y,
      fun q => if q = o then (s.itemsOf o).erase x else s.itemsOf q⟩ := by
  simp [treeExec, hold, hmem, setParentField, setItemsField]

/-- Moving a node from one parent to another: update the pointer, remove from
the old parent's items, and append to the end of the new parent's items. -/
theorem setp_move (f : ℕ) (s : TreeState) (x o np : ℕ)
    (hold : s.parentOf x = some o) (hne : o ≠ np)
    (hmo : x ∈ s.itemsOf o) (hmn : x ∉ s.itemsOf np) :
    treeExec noEqv (f + 5) s (.setp x (some np)) =
    some ⟨fun y => if y = x then some np else s.parentOf y,
      fun q => if q = np then s.itemsOf np ++ [x]
        else if q = o then (s.itemsOf o).erase x else s.itemsOf q⟩ := by
  simp [treeExec, hold, hne, Ne.symm hne, hmo, hmn, setParentField, setItemsField]
  funext y
  by_cases hyx : y = x <;> simp [hyx]

/-- `append_item` on a parentless node: append and set the pointer. -/
theorem app_from_none (f : ℕ) (s : TreeState) (self x : ℕ)
    (hold : s.parentOf x = none) :
    treeExec noEqv (f + 2) s (.app self x) =
    some ⟨fun y => if y = x then some self else s.parentOf y,
      fun q => if q = self then s.itemsOf self ++ [x] else s.itemsOf q⟩ := by
  simp [treeExec, hold, setItemsField, setParentField]

/-- `append_item` on a node owned by another parent: the node ends up appended
to the new parent's items and erased from the old parent's. -/
theorem app_move (f : ℕ) (s : TreeState) (self x o : ℕ)
    (hold : s.parentOf x = some o) (hne : o ≠ self)
    (hmo : x ∈ s.itemsOf o) (hmn : x ∉ s.itemsOf self) :
    treeExec noEqv (f + 6) s (.app self x) =
    some ⟨fun y => if y = x then some self else s.parentOf y,
      fun q => if q = self then s.itemsOf self ++ [x]
        else if q = o then (s.itemsOf o).erase x else s.itemsOf q⟩ := by
  have herase : (s.itemsOf self ++ [x]).erase x = s.itemsOf self := by
    rw [List.erase_append_right _ hmn]
    simp
  simp [treeExec, hold, hne, Ne.symm hne, hmo, hmn, herase, setParentField,
    setItemsField]
  constructor
  · funext y
    by_cases hyx : y = x <;> simp [hyx]
  · funext y
    by_cases hys : y = self <;> simp [hys]

/-- `insert_item` on a parentless node: insert at the index and set the
pointer. -/
theorem ins_from_none (f : ℕ) (s : TreeState) (self i x : ℕ)
    (hold : s.parentOf x = none) :
    treeExec noEqv (f + 1) (setItemsField s self (pyInsert (s.itemsOf self) i x))
      (.setp x (some self)) =
    some ⟨fun y => if y = x then some self else s.parentOf y,
      fun q => if q = self then pyInsert (s.itemsOf self) i x
        else s.itemsOf q⟩ := by
  simp [treeExec, hold, setItemsField, setParentField, pyInsert]

/-- `insert_item` on a node owned by another parent: the reattachment dance
erases the freshly inserted occurrence and re-appends the node at the end, so
it ends up appended (not at the requested index) and erased from the old
parent's items. -/
theorem ins_move (f : ℕ) (s : TreeState) (self i x o : ℕ)
    (hold : s.parentOf x = some o) (hne : o ≠ self)
    (hmo : x ∈ s.itemsOf o) (hmn : x ∉ s.itemsOf self) :
    treeExec noEqv (f + 5) (setItemsField s self (pyInsert (s.itemsOf self) i x))
      (.setp x (some self)) =
    some ⟨fun y => if y = x then some self else s.parentOf y,
      fun q => if q = self then s.itemsOf self ++ [x]
        else if q = o then (s.itemsOf o).erase x else s.itemsOf q⟩ := by
  have htake : x ∉ (s.itemsOf self).take i := by
    intro hc
    exact hmn (List.mem_of_mem_take hc)
  have herase : (List.take i (s.itemsOf self) ++
      x :: List.drop i (s.itemsOf self)).erase x = s.itemsOf self := by
    rw [List.erase_append_right _ htake, List.erase_cons_head,
      List.take_append_drop]
  simp [treeExec, hold, hne, Ne.symm hne, hmo, hmn, herase, setParentField,
    setItemsField, pyInsert]
  constructor
  · funext y
    by_cases hyx : y = x <;> simp [hyx]
  · funext y
    by_cases hys : y = self <;> simp [hys]

/-- `remove_item` of a present, singly-listed child: erase it and clear its
parent pointer (the recursive removal attempt fails and is swallowed). -/
theorem rem_top (f : ℕ) (s : TreeState) (self x : ℕ)
    (hold : s.parentOf x = some self) (hmem : x ∈ s.itemsOf self)
    (hgone : x ∉ (s.itemsOf self).erase x) :
    treeExec noEqv (f + 3) s (.rem self x) =
    some ⟨fun y => if y = x then none else s.parentOf y,
      fun q => if q = self then (s.itemsOf self).erase x else s.itemsOf q⟩ := by
  simp [treeExec, hold, hmem, hgone, setParentField, setItemsField]

theorem Consistent.mem_of_parent {s : TreeState} {x o : ℕ} (h : Consistent s)
    (hp : s.parentOf x = some o) : x ∈ s.itemsOf o := by
  have hc := h.2.1 x o hp
  exact List.count_pos_iff.mp (by omega)

theorem Consistent.not_mem_erase {s : TreeState} {x o : ℕ} (h : Consistent s)
    (hp : s.parentOf x = some o) : x ∉ (s.itemsOf o).erase x := by
  have hc := h.2.1 x o hp
  intro hc2
  have hpos := List.count_pos_iff.mpr hc2
  rw [List.count_erase_self, hc] at hpos
  omega

theorem Consistent.not_mem_of_parent_ne {s : TreeState} {x q : ℕ}
    (h : Consistent s) (hp : s.parentOf x ≠ some q) : x ∉ s.itemsOf q :=
  fun hc => hp (h.1 q x hc)

theorem count_pyInsert (l : List ℕ) (i x y : ℕ) :
    (pyInsert l i x).count y = l.count y + if y = x then 1 else 0 := by
  have hl : l.count y = (List.take i l).count y + (List.drop i l).count y := by
    conv_lhs => rw [← List.take_append_drop i l]
    rw [List.count_append]
  rw [pyInsert, List.count_append, List.count_append, hl]
  by_cases hyx : y = x <;> (simp [hyx]; try omega)

/-- Attaching a parentless node `x` under `self`, where the new child list
`l2` adds exactly one occurrence of `x` to the old one, keeps the state
consistent. -/
theorem consistent_attach (s : TreeState) (x self : ℕ) (l2 : List ℕ)
    (h : Consistent s) (hpar : s.parentOf x = none)
    (hc : ∀ y, l2.count y = (s.itemsOf self).count y + if y = x then 1 else 0) :
    Consistent ⟨fun y => if y = x then some self else s.parentOf y,
      fun q => if q = self then l2 else s.itemsOf q⟩ := by
  have hmem2 : ∀ y, y ∈ l2 ↔ (y ∈ s.itemsOf self ∨ y = x) := by
    intro y
    constructor
    · intro hy
      have := List.count_pos_iff.mpr hy
      rw [hc y] at this
      by_cases hyx : y = x
      · exact Or.inr hyx
      · refine Or.inl (List.count_pos_iff.mp ?_)
        rw [if_neg hyx] at this
        omega
    · intro hy
      refine List.count_pos_iff.mp ?_
      rw [hc y]
      rcases hy with hy | rfl
      · have hpos := List.count_pos_iff.mpr hy
        by_cases hyx : y = x
        · rw [if_pos hyx]
          omega
        · rw [if_neg hyx]
          omega
      · rw [if_pos rfl]
        omega
  refine ⟨?_, ?_, ?_⟩
  · intro q y hy
    simp only at hy ⊢
    by_cases hqs : q = self
    · subst hqs
      rw [if_pos rfl] at hy
      rcases (hmem2 y).mp hy with hy2 | rfl
      · by_cases hyx : y = x
        · simp [hyx]
        · rw [if_neg hyx]
          exact h.1 q y hy2
      · simp
    · rw [if_neg hqs] at hy
      have hyx : y ≠ x := by
        rintro rfl
        exact h.2.2 y hpar q hy
      rw [if_neg hyx]
      exact h.1 q y hy
  · intro y q hy
    simp only at hy ⊢
    by_cases hyx : y = x
    · subst hyx
      rw [if_pos rfl] at hy
      cases hy
      rw [if_pos rfl, hc y, if_pos rfl,
        List.count_eq_zero.mpr (h.2.2 y hpar _)]
    · rw [if_neg hyx] at hy
      have hcnt := h.2.1 y q hy
      by_cases hqs : q = self
      · subst hqs
        rw [if_pos rfl, hc y, if_neg hyx, hcnt]
      · rw [if_neg hqs]
        exact hcnt
  · intro y hy q
    simp only at hy ⊢
    by_cases hyx : y = x
    · rw [if_pos hyx] at hy
      cases hy
    · rw [if_neg hyx] at hy
      have hnot := h.2.2 y hy
      by_cases hqs : q = self
      · subst hqs
        rw [if_pos rfl]
        intro hy2
        rcases (hmem2 y).mp hy2 with hy3 | rfl
        · exact hnot _ hy3
        · exact hyx rfl
      · rw [if_neg hqs]
        exact hnot q

/-- Detaching `x` from its parent `o` (clearing the pointer, erasing one
occurrence) keeps the state consistent. -/
theorem consistent_detach (s : TreeState) (x o : ℕ)
    (h : Consistent s) (hpar : s.parentOf x = some o) :
    Consistent ⟨fun y => if y = x then none else s.parentOf y,
      fun q => if q = o then (s.itemsOf o).erase x else s.itemsOf q⟩ := by
  refine ⟨?_, ?_, ?_⟩
  · intro q y hy
    simp only at hy ⊢
    by_cases hqo : q = o
    · subst hqo
      rw [if_pos rfl] at hy
      have hyx : y ≠ x := by
        rintro rfl
        exact h.not_mem_erase hpar hy
      rw [if_neg hyx]
      exact h.1 q y (List.mem_of_mem_erase hy)
    · rw [if_neg hqo] at hy
      have hyx : y ≠ x := by
        rintro rfl
        have := h.1 q y hy
        rw [hpar] at this
        cases this
        exact hqo rfl
      rw [if_neg hyx]
      exact h.1 q y hy
  · intro y q hy
    simp only at hy ⊢
    by_cases hyx : y = x
    · rw [if_pos hyx] at hy
      cases hy
    · rw [if_neg hyx] at hy
      have hcnt := h.2.1 y q hy
      by_cases hqo : q = o
      · subst hqo
        rw [if_pos rfl, List.count_erase_of_ne hyx, hcnt]
      · rw [if_neg hqo]
        exact hcnt
  · intro y hy q
    simp only at hy ⊢
    by_cases hyx : y = x
    · subst hyx
      by_cases hqo : q = o
      · subst hqo
        rw [if_pos rfl]
        exact h.not_mem_erase hpar
      · rw [if_neg hqo]
        intro hc
        have := h.1 q y hc
        rw [hpar] at this
        cases this
        exact hqo rfl
    · rw [if_neg hyx] at hy
      have hnot := h.2.2 y hy
      by_cases hqo : q = o
      · subst hqo
        rw [if_pos rfl]
        intro hc
        exact hnot _ (List.mem_of_mem_erase hc)
      · rw [if_neg hqo]
        exact hnot q

/-- Moving `x` from parent `o` to parent `np ≠ o`, where the new child list
`l2` adds exactly one occurrence of `x` to `np`'s old one, keeps the state
consistent. -/
theorem consistent_move (s : TreeState) (x o np : ℕ) (l2 : List ℕ)
    (h : Consistent s) (hpar : s.parentOf x = some o) (hne : o ≠ np)
    (hc : ∀ y, l2.count y = (s.itemsOf np).count y + if y = x then 1 else 0) :
    Consistent ⟨fun y => if y = x then some np else s.parentOf y,
      fun q => if q = np then l2
        else if q = o then (s.itemsOf o).erase x else s.itemsOf q⟩ := by
  have hxnp : x ∉ s.itemsOf np := by
    refine h.not_mem_of_parent_ne ?_
    rw [hpar]
    simp [hne]
  have hmem2 : ∀ y, y ∈ l2 ↔ (y ∈ s.itemsOf np ∨ y = x) := by
    intro y
    constructor
    · intro hy
      have hpos := List.count_pos_iff.mpr hy
      rw [hc y] at hpos
      by_cases hyx : y = x
      · exact Or.inr hyx
      · refine Or.inl (List.count_pos_iff.mp ?_)
        rw [if_neg hyx] at hpos
        omega
    · intro hy
      refine List.count_pos_iff.mp ?_
      rw [hc y]
      rcases hy with hy | rfl
      · have hpos := List.count_pos_iff.mpr hy
        by_cases hyx : y = x
        · rw [if_pos hyx]
          omega
        · rw [if_neg hyx]
          omega
      · rw [if_pos rfl]
        omega
  refine ⟨?_, ?_, ?_⟩
  · intro q y hy
    simp only at hy ⊢
    by_cases hqnp : q = np
    · subst hqnp
      rw [if_pos rfl] at hy
      rcases (hmem2 y).mp hy with hy2 | rfl
      · have hyx : y ≠ x := by
          rintro rfl
          exact hxnp hy2
        rw [if_neg hyx]
        exact h.1 q y hy2
      · simp
    · rw [if_neg hqnp] at hy
      by_cases hqo : q = o
      · subst hqo
        rw [if_pos rfl] at hy
        have hyx : y ≠ x := by
          rintro rfl
          exact h.not_mem_erase hpar hy
        rw [if_neg hyx]
        exact h.1 q y (List.mem_of_mem_erase hy)
      · rw [if_neg hqo] at hy
        have hyx : y ≠ x := by
          rintro rfl
          have := h.1 q y hy
          rw [hpar] at this
          cases this
          exact hqo rfl
        rw [if_neg hyx]
        exact h.1 q y hy
  · intro y q hy
    simp only at hy ⊢
    by_cases hyx : y = x
    · subst hyx
      rw [if_pos rfl] at hy
      cases hy
      rw [if_pos rfl, hc y, if_pos rfl, List.count_eq_zero.mpr hxnp]
    · rw [if_neg hyx] at hy
      have hcnt := h.2.1 y q hy
      by_cases hqnp : q = np
      · subst hqnp
        rw [if_pos rfl, hc y, if_neg hyx, hcnt]
      · rw [if_neg hqnp]
        by_cases hqo : q = o
        · subst hqo
          rw [if_pos rfl, List.count_erase_of_ne hyx, hcnt]
        · rw [if_neg hqo]
          exact hcnt
  · intro y hy q
    simp only at hy ⊢
    by_cases hyx : y = x
    · rw [if_pos hyx] at hy
      cases hy
    · rw [if_neg hyx] at hy
      have hnot := h.2.2 y hy
      by_cases hqnp : q = np
      · subst hqnp
        rw [if_pos rfl]
        intro hy2
        rcases (hmem2 y).mp hy2 with hy3 | rfl
        · exact hnot _ hy3
        · exact hyx rfl
      · rw [if_neg hqnp]
        by_cases hqo : q = o
        · subst hqo
          rw [if_pos rfl]
          intro hy2
          exact hnot _ (List.mem_of_mem_erase hy2)
        · rw [if_neg hqo]
          exact hnot q

theorem setParent_consistent (s : TreeState) (x : ℕ) (p : Option ℕ)
    (h : Consistent s) : Consistent (setParent noEqv s x p) := by
  by_cases hp : s.parentOf x = p
  · rw [setParent_noop s x p hp]
    exact h
  · cases hpx : s.parentOf x with
    | none =>
      cases p with
      | none => exact absurd hpx hp
      | some np =>
        have hmem : x ∉ s.itemsOf np := h.2.2 x hpx np
        rw [setParent, show opFuel = 9 + 3 from rfl,
          setp_from_none 9 s x np hpx hmem, Option.getD_some]
        refine consistent_attach s x np (s.itemsOf np ++ [x]) h hpx ?_
        intro y
        by_cases hyx : y = x <;> simp [List.count_append, hyx]
    | some o =>
      cases p with
      | none =>
        rw [setParent, show opFuel = 9 + 3 from rfl,
          setp_to_none 9 s x o hpx (h.mem_of_parent hpx), Option.getD_some]
        exact consistent_detach s x o h hpx
      | some np =>
        have hone : o ≠ np := fun he => hp (by rw [hpx, he])
        have hmn : x ∉ s.itemsOf np := by
          refine h.not_mem_of_parent_ne ?_
          rw [hpx]
          simp [hone]
        rw [setParent, show opFuel = 7 + 5 from rfl,
          setp_move 7 s x o np hpx hone (h.mem_of_parent hpx) hmn,
          Option.getD_some]
        refine consistent_move s x o np (s.itemsOf np ++ [x]) h hpx hone ?_
        intro y
        by_cases hyx : y = x <;> simp [List.count_append, hyx]

/-- Reassigning a parent from a consistent state: the node's pointer names the
new parent, the new parent lists it exactly once, and no other node lists it. -/
theorem setParent_reassign (s : TreeState) (x np : ℕ) (h : Consistent s)
    (hne : s.parentOf x ≠ some np) :
    (setParent noEqv s x (some np)).parentOf x = some np ∧
    ((setParent noEqv s x (some np)).itemsOf np).count x = 1 ∧
    ∀ o, o ≠ np → x ∉ (setParent noEqv s x (some np)).itemsOf o := by
  have hcons := setParent_consistent s x (some np) h
  have hpar : (setParent noEqv s x (some np)).parentOf x = some np := by
    cases hpx : s.parentOf x with
    | none =>
      rw [setParent, show opFuel = 9 + 3 from rfl,
        setp_from_none 9 s x np hpx (h.2.2 x hpx np), Option.getD_some]
      simp
    | some o =>
      have hone : o ≠ np := fun he => hne (by rw [hpx, he])
      have hmn : x ∉ s.itemsOf np := by
        refine h.not_mem_of_parent_ne ?_
        rw [hpx]
        simp [hone]
      rw [setParent, show opFuel = 7 + 5 from rfl,
        setp_move 7 s x o np hpx hone (h.mem_of_parent hpx) hmn,
        Option.getD_some]
      simp
  refine ⟨hpar, hcons.2.1 x np hpar, fun o ho hc => ?_⟩
  have := hcons.1 o x hc
  rw [hpar] at this
  cases this
  exact ho rfl

theorem appendItem_consistent (s : TreeState) (self x : ℕ)
    (h : Consistent s) (hnm : x ∉ s.itemsOf self) :
    Consistent (appendItem noEqv s self x) := by
  cases hpx : s.parentOf x with
  | none =>
    rw [appendItem, show opFuel = 10 + 2 from rfl,
      app_from_none 10 s self x hpx, Option.getD_some]
    refine consistent_attach s x self (s.itemsOf self ++ [x]) h hpx ?_
    intro y
    by_cases hyx : y = x <;> simp [List.count_append, hyx]
  | some o =>
    have hne : o ≠ self := by
      rintro rfl
      exact hnm (h.mem_of_parent hpx)
    rw [appendItem, show opFuel = 6 + 6 from rfl,
      app_move 6 s self x o hpx hne (h.mem_of_parent hpx) hnm, Option.getD_some]
    refine consistent_move s x o self (s.itemsOf self ++ [x]) h hpx hne ?_
    intro y
    by_cases hyx : y = x <;> simp [List.count_append, hyx]

theorem insertItem_consistent (s : TreeState) (self i x : ℕ)
    (h : Consistent s) (hnm : x ∉ s.itemsOf self) :
    Consistent (insertItem noEqv s self i x) := by
  cases hpx : s.parentOf x with
  | none =>
    simp only [insertItem]
    rw [show opFuel = 11 + 1 from rfl, ins_from_none 11 s self i x hpx,
      Option.getD_some]
    exact consistent_attach s x self (pyInsert (s.itemsOf self) i x) h hpx
      (fun y => count_pyInsert _ i x y)
  | some o =>
    have hne : o ≠ self := by
      rintro rfl
      exact hnm (h.mem_of_parent hpx)
    simp only [insertItem]
    rw [show opFuel = 7 + 5 from rfl,
      ins_move 7 s self i x o hpx hne (h.mem_of_parent hpx) hnm, Option.getD_some]
    refine consistent_move s x o self (s.itemsOf self ++ [x]) h hpx hne ?_
    intro y
    by_cases hyx : y = x <;> simp [List.count_append, hyx]

theorem removeStep_consistent (s : TreeState) (self x : ℕ) (h : Consistent s) :
    Consistent ((removeItem noEqv s self x).getD s) := by
  by_cases hmem : x ∈ s.itemsOf self
  · have hpx : s.parentOf x = some self := h.1 self x hmem
    rw [removeItem, show opFuel = 9 + 3 from rfl,
      rem_top 9 s self x hpx hmem (h.not_mem_erase hpx), Option.getD_some]
    exact consistent_detach s x self h hpx
  · rw [removeItem, show opFuel = 11 + 1 from rfl, rem_absent 11 s self x hmem]
    exact h

theorem stepOp_consistent (s : TreeState) (op : TreeOp) (h : Consistent s)
    (hg : goodOp s op) : Consistent (stepOp noEqv s op) := by
  cases op with
  | append self x => exact appendItem_consistent s self x h hg
  | insert self i x => exact insertItem_consistent s self i x h hg
  | remove self x => exact removeStep_consistent s self x h
  | setPar x p => exact setParent_consistent s x p h

theorem runOps_consistent (ops : List TreeOp) : ∀ s, Consistent s →
    GoodSeq noEqv s ops → Consistent (runOps noEqv s ops) := by
  induction ops with
  | nil =>
    intro s h _
    exact h
  | cons op ops ih =>
    intro s h hg
    exact ih (stepOp noEqv s op) (stepOp_consistent s op h hg.1) hg.2

theorem initTreeState_consistent : Consistent initTreeState := by
  refine ⟨?_, ?_, ?_⟩ <;> intros <;> simp_all [initTreeState]

/-- With no structural aliasing, Python membership agrees with plain
membership. -/
theorem pyElem_subid {eqv : ℕ → ℕ → Bool} (heqv : SubId eqv) (x : ℕ) (l : List ℕ) :
    pyElem eqv x l ↔ x ∈ l := by
  unfold pyElem
  constructor
  · rintro (h | ⟨y, hy, he⟩)
    · exact h
    · obtain rfl := heqv x y he
      exact hy
  · exact Or.inl

/-- With no structural aliasing, `list.remove` behaves as in the
aliasing-free runs. -/
theorem pyRemove_subid {eqv : ℕ → ℕ → Bool} (heqv : SubId eqv) (l : List ℕ) (x : ℕ) :
    pyRemove eqv l x = pyRemove noEqv l x := by
  induction l with
  | nil => rfl
  | cons y rest ih =>
    have hc : (x = y ∨ eqv x y = true) ↔ (x = y ∨ noEqv x y = true) := by
      constructor
      · rintro (h | h)
        · exact Or.inl h
        · exact Or.inl (heqv x y h)
      · rintro (h | h)
        · exact Or.inl h
        · simp [noEqv] at h
    simp only [pyRemove, ih]
    exact if_congr hc rfl rfl

/-- A run containing no pair of structurally equal distinct nodes executes
exactly as the aliasing-free model. -/
theorem treeExec_subid {eqv : ℕ → ℕ → Bool} (heqv : SubId eqv) :
    ∀ (f : ℕ) (s : TreeState) (c : CallK), treeExec eqv f s c = treeExec noEqv f s c := by
  intro f
  induction f with
  | zero => intro s c; rfl
  | succ f ih =>
    intro s c
    cases c with
    | setp x p =>
      simp only [treeExec, ih, pyRemove_subid heqv, pyElem_subid heqv, pyElem_noEqv]
    | rem self x =>
      simp only [treeExec, ih, pyRemove_subid heqv]
    | app self x =>
      simp only [treeExec, ih]

theorem setParent_subid {eqv : ℕ → ℕ → Bool} (heqv : SubId eqv)
    (s : TreeState) (x : ℕ) (p : Option ℕ) :
    setParent eqv s x p = setParent noEqv s x p := by
  simp [setParent, treeExec_subid heqv]

theorem stepOp_subid {eqv : ℕ → ℕ → Bool} (heqv : SubId eqv)
    (s : TreeState) (op : TreeOp) : stepOp eqv s op = stepOp noEqv s op := by
  cases op <;>
    simp [stepOp, setParent, appendItem, insertItem, removeItem, treeExec_subid heqv]

theorem runOps_subid {eqv : ℕ → ℕ → Bool} (heqv : SubId eqv) :
    ∀ (ops : List TreeOp) (s : TreeState), runOps eqv s ops = runOps noEqv s ops := by
  intro ops
  induction ops with
  | nil => intro s; rfl
  | cons op rest ih =>
    intro s
    simp only [runOps, stepOp_subid heqv, ih]

theorem GoodSeq_subid {eqv : ℕ → ℕ → Bool} (heqv : SubId eqv) :
    ∀ (ops : List TreeOp) (s : TreeState), GoodSeq eqv s ops ↔ GoodSeq noEqv s ops := by
  intro ops
  induction ops with
  | nil => intro s; exact Iff.rfl
  | cons op rest ih =>
    intro s
    simp only [GoodSeq, stepOp_subid heqv, ih]

/-- C2 (amended): after any sequence of `append_item` / `insert_item` /
`remove_item` / parent assignments in which `append_item` and `insert_item`
are never handed an item already among that parent's items, and in which no
two distinct participating nodes are structurally equal under
`Stimulus.__eq__` (`SubId eqv` - the membership tests and `list.remove`
match by identity or `__eq__`, so aliased nodes break the invariant, cf. the
counterexample), the parent/child relation is bidirectionally consistent
(each child's parent pointer names its container, a node's parent lists it
exactly once, parentless nodes appear in no items list); and reassigning a
node's parent from any consistent state removes it from the old parent's
items and leaves it listed exactly once by the new parent. -/
theorem c2_parent_child_consistency (eqv : ℕ → ℕ → Bool) (heqv : SubId eqv)
    (ops : List TreeOp) (hg : GoodSeq eqv initTreeState ops) :
    Consistent (runOps eqv initTreeState ops) ∧
    ∀ s x np, Consistent s → s.parentOf x ≠ some np →
      (setParent eqv s x (some np)).parentOf x = some np ∧
      ((setParent eqv s x (some np)).itemsOf np).count x = 1 ∧
      ∀ o, o ≠ np → x ∉ (setParent eqv s x (some np)).itemsOf o := by
  constructor
  · rw [runOps_subid heqv]
    exact runOps_consistent ops initTreeState initTreeState_consistent
      ((GoodSeq_subid heqv ops initTreeState).mp hg)
  · intro s x np h hne
    simp only [setParent_subid heqv]
    exact setParent_reassign s x np h hne

/-- C2 witness: a concrete good sequence without aliasing - append node 1
under 0, insert node 2 under 0, move node 1 under 3, remove node 2 - ends
consistent. -/
theorem c2_witness :
    Consistent (runOps noEqv initTreeState
      [.append 0 1, .insert 0 0 2, .setPar 1 (some 3), .remove 0 2]) := by
  refine (c2_parent_child_consistency noEqv (fun a b h => by simp [noEqv] at h) _ ?_).1
  refine ⟨?_, ?_, trivial, trivial, trivial⟩
  · show (1 : ℕ) ∉ initTreeState.itemsOf 0
    decide
  · show (2 : ℕ) ∉ (stepOp noEqv initTreeState (.append 0 1)).itemsOf 0
    decide

/-- C2 counterexample, two failure modes of the original claim.  (a)
Appending the same child twice - plain `append_item` calls - leaves node 1
listed twice in node 0's items.  (b) With two distinct but structurally
equal (`Stimulus.__eq__`) nodes 1 and 2 (`eqvCex`), the sequence
append(0, 1); node2.parent = 0; remove_item(0, 1) - whose only append hands
the parent an item not among its items - ends with node 2's parent pointing
at node 0 while node 0 lists node 2 zero times: the parent setter's
`self not in new_parent.items` finds node 1 as an `__eq__` stand-in for
node 2 and skips the append, and the later removal empties the list. -/
theorem c2_counterexample :
    ((runOps noEqv initTreeState [.append 0 1, .append 0 1]).parentOf 1 = some 0 ∧
     ((runOps noEqv initTreeState [.append 0 1, .append 0 1]).itemsOf 0).count 1 = 2 ∧
     ¬ Consistent (runOps noEqv initTreeState [.append 0 1, .append 0 1])) ∧
    (GoodSeq eqvCex initTreeState
        [.append 0 1, .setPar 2 (some 0), .remove 0 1] ∧
     (runOps eqvCex initTreeState
        [.append 0 1, .setPar 2 (some 0), .remove 0 1]).parentOf 2 = some 0 ∧
     ((runOps eqvCex initTreeState
        [.append 0 1, .setPar 2 (some 0), .remove 0 1]).itemsOf 0).count 2 = 0 ∧
     ¬ Consistent (runOps eqvCex initTreeState
        [.append 0 1, .setPar 2 (some 0), .remove 0 1])) := by
  constructor
  · refine ⟨by decide, by decide, ?_⟩
    intro hcon
    have h1 : (runOps noEqv initTreeState [.append 0 1, .append 0 1]).parentOf 1 =
        some 0 := by decide
    have h2 := hcon.2.1 1 0 h1
    have h3 : ((runOps noEqv initTreeState
        [.append 0 1, .append 0 1]).itemsOf 0).count 1 = 2 := by decide
    omega
  · refine ⟨⟨?_, trivial, trivial, trivial⟩, by decide, by decide, ?_⟩
    · show (1 : ℕ) ∉ initTreeState.itemsOf 0
      decide
    · intro hcon
      have h1 : (runOps eqvCex initTreeState
          [.append 0 1, .setPar 2 (some 0), .remove 0 1]).parentOf 2 = some 0 := by
        decide
      have h2 := hcon.2.1 2 0 h1
      have h3 : ((runOps eqvCex initTreeState
          [.append 0 1, .setPar 2 (some 0), .remove 0 1]).itemsOf 0).count 2 = 0 := by
        decide
      omega

theorem getUnitsD_unitsJ (u : Option String) : getUnitsD (some (unitsJ u)) = .ok u := by
  cases u <;> simp [getUnitsD, unitsJ]

theorem wfList_iff (l : List Stim1) : WFList l ↔ ∀ t ∈ l, WFStim t := by
  induction l with
  | nil => simp [WFList]
  | cons s rest ih => simp [WFList, ih]

theorem sizeOf_items_lt (k : Kind1) (f : BaseFields) (items : List Stim1) :
    sizeOf items < sizeOf (Stim1.mk k f items) := by
  simp only [Stim1.mk.sizeOf_spec]
  omega

theorem attrsEq_self (names : List String) (s : Stim1)
    (h : ∀ nm ∈ names, (s.getattrJ nm).isSome = true) : attrsEq s s names = .ok true := by
  induction names with
  | nil => rfl
  | cons nm rest ih =>
    obtain ⟨v, hv⟩ := Option.isSome_iff_exists.mp (h nm (by simp))
    simp only [attrsEq, hv]
    simp only [if_pos rfl, if_true]
    exact ih (fun x hx => h x (by simp [hx]))

theorem stimEq_pulse_refl (a : ℚ) (pn : Option ℤ) (g : BaseFields) :
    stimEq (.mk (.pulseK a pn) g []) (.mk (.pulseK a pn) g []) = .ok true := by
  have ha : attrsEq (.mk (.pulseK a pn) g []) (.mk (.pulseK a pn) g [])
      (Kind1.attrNames (.pulseK a pn)) = .ok true := by
    apply attrsEq_self
    intro nm hnm
    simp [Kind1.attrNames] at hnm
    rcases hnm with rfl | rfl | rfl | rfl | rfl | rfl <;> simp [Stim1.getattrJ]
  simp [stimEq, ha, stimEqList]

theorem stimEqList_refl_pulses (l : List Stim1)
    (h : ∀ t ∈ l, ∃ a pn g, t = Stim1.mk (.pulseK a pn) g []) :
    stimEqList l l = .ok true := by
  induction l with
  | nil => simp [stimEqList]
  | cons s rest ih =>
    obtain ⟨a, pn, g, hs⟩ := h s (by simp)
    subst hs
    simp only [stimEqList, stimEq_pulse_refl]
    exact ih (fun x hx => h x (by simp [hx]))

theorem trainItems_pulses (n : ℤ) (pd a iv : ℚ) (u : Option String) :
    ∀ t ∈ trainItems n pd a iv u, ∃ a2 pn g, t = Stim1.mk (.pulseK a2 pn) g [] := by
  intro t ht
  simp only [trainItems, List.mem_map] at ht
  obtain ⟨i, _, rfl⟩ := ht
  exact ⟨a, some (i : ℤ), _, rfl⟩

theorem seriesItems_pulses (ts ds amps : List ℚ) (u : Option String) :
    ∀ t ∈ seriesItems ts ds amps u, ∃ a2 pn g, t = Stim1.mk (.pulseK a2 pn) g [] := by
  intro t ht
  simp only [seriesItems, List.mem_map] at ht
  obtain ⟨i, _, rfl⟩ := ht
  exact ⟨amps.getD i 0, some (i : ℤ), _, rfl⟩

theorem wf_trainItems (n : ℤ) (pd a iv : ℚ) (u : Option String) :
    WFList (trainItems n pd a iv u) := by
  rw [wfList_iff]
  intro t ht
  obtain ⟨a2, pn, g, rfl⟩ := trainItems_pulses n pd a iv u t ht
  simp [WFStim]

theorem wf_seriesItems (ts ds amps : List ℚ) (u : Option String) :
    WFList (seriesItems ts ds amps u) := by
  rw [wfList_iff]
  intro t ht
  obtain ⟨a2, pn, g, rfl⟩ := seriesItems_pulses ts ds amps u t ht
  simp [WFStim]

theorem rt_offset (a : ℚ) (f : BaseFields) :
    ∃ t2, stimRoundTrip (Stim1.mk (.offsetK a) f []) = .ok t2 ∧
      stimEq t2 (Stim1.mk (.offsetK a) f []) = .ok true := by
  refine ⟨.mk (.offsetK a) ⟨f.description, f.startTime, f.units, 0⟩ [], ?_, ?_⟩
  · simp [stimRoundTrip, saveStim, saveItems, buildArgs, Stim1.getattrJ, Stim1.baseF,
      Kind1.attrNames, Kind1.typeTag, dictSet, loadStim, loadItems, knownTags,
      constructStim, dictGet, getNumReq, getNumD, getStrD, getUnitsD_unitsJ]
  · simp [stimEq, Kind1.typeTag, Kind1.attrNames, attrsEq, Stim1.getattrJ, Stim1.baseF,
      stimEqList]

theorem rt_pulse (a : ℚ) (pn : Option ℤ) (f : BaseFields) :
    ∃ t2, stimRoundTrip (Stim1.mk (.pulseK a pn) f []) = .ok t2 ∧
      stimEq t2 (Stim1.mk (.pulseK a pn) f []) = .ok true := by
  refine ⟨.mk (.pulseK a none) ⟨f.description, f.startTime, f.units, f.duration⟩ [], ?_, ?_⟩
  · simp [stimRoundTrip, saveStim, saveItems, buildArgs, Stim1.getattrJ, Stim1.baseF,
      Kind1.attrNames, Kind1.typeTag, dictSet, loadStim, loadItems, knownTags,
      constructStim, dictGet, getNumReq, getNumD, getStrD, getUnitsD_unitsJ]
  · simp [stimEq, Kind1.typeTag, Kind1.attrNames, attrsEq, Stim1.getattrJ, Stim1.baseF,
      stimEqList]

theorem rt_sine (fr a ph ofv : ℚ) (f : BaseFields) :
    ∃ t2, stimRoundTrip (Stim1.mk (.sineK fr a ph ofv) f []) = .ok t2 ∧
      stimEq t2 (Stim1.mk (.sineK fr a ph ofv) f []) = .ok true := by
  refine ⟨.mk (.sineK fr a ph 0) ⟨f.description, f.startTime, f.units, f.duration⟩ [], ?_, ?_⟩
  · simp [stimRoundTrip, saveStim, saveItems, buildArgs, Stim1.getattrJ, Stim1.baseF,
      Kind1.attrNames, Kind1.typeTag, dictSet, loadStim, loadItems, knownTags,
      constructStim, dictGet, getNumReq, getNumD, getStrD, getUnitsD_unitsJ]
  · simp [stimEq, Kind1.typeTag, Kind1.attrNames, attrsEq, Stim1.getattrJ, Stim1.baseF,
      stimEqList]

theorem rt_chirp (f0 f1 a ph ofv : ℚ) (f : BaseFields) :
    ∃ t2, stimRoundTrip (Stim1.mk (.chirpK f0 f1 a ph ofv) f []) = .ok t2 ∧
      stimEq t2 (Stim1.mk (.chirpK f0 f1 a ph ofv) f []) = .ok true := by
  refine ⟨.mk (.chirpK f0 f1 a ph ofv) ⟨f.description, f.startTime, f.units, f.duration⟩ [], ?_, ?_⟩
  · simp [stimRoundTrip, saveStim, saveItems, buildArgs, Stim1.getattrJ, Stim1.baseF,
      Kind1.attrNames, Kind1.typeTag, dictSet, loadStim, loadItems, knownTags,
      constructStim, dictGet, getNumReq, getNumD, getStrD, getUnitsD_unitsJ]
  · simp [stimEq, Kind1.typeTag, Kind1.attrNames, attrsEq, Stim1.getattrJ, Stim1.baseF,
      stimEqList]

theorem rt_psp (rt dtau a rp : ℚ) (f : BaseFields) :
    ∃ t2, stimRoundTrip (Stim1.mk (.pspK rt dtau a rp) f []) = .ok t2 ∧
      stimEq t2 (Stim1.mk (.pspK rt dtau a rp) f []) = .ok true := by
  refine ⟨.mk (.pspK rt dtau a rp) ⟨f.description, f.startTime, f.units, 0⟩ [], ?_, ?_⟩
  · simp [stimRoundTrip, saveStim, saveItems, buildArgs, Stim1.getattrJ, Stim1.baseF,
      Kind1.attrNames, Kind1.typeTag, dictSet, loadStim, loadItems, knownTags,
      constructStim, dictGet, getNumReq, getNumD, getStrD, getUnitsD_unitsJ]
  · simp [stimEq, Kind1.typeTag, Kind1.attrNames, attrsEq, Stim1.getattrJ, Stim1.baseF,
      stimEqList]

theorem stimEq_base_of (f g : BaseFields) (items items2 : List Stim1)
    (hd : f.description = g.description) (hs : f.startTime = g.startTime)
    (hu : f.units = g.units) (hlen : items.length = items2.length)
    (hch : stimEqList items items2 = .ok true) :
    stimEq (.mk .base f items) (.mk .base g items2) = .ok true := by
  simp [stimEq, Kind1.typeTag, hlen, Kind1.attrNames, attrsEq, Stim1.getattrJ, Stim1.baseF,
    hd, hs, hu, hch]

theorem rt_base (f : BaseFields) (items : List Stim1) (recs : List SaveRec) (l2 : List Stim1)
    (hsave : saveItems items = .ok recs) (hload : loadItems recs = .ok l2)
    (hlen : l2.length = items.length) (heq : stimEqList l2 items = .ok true) :
    ∃ t2, stimRoundTrip (Stim1.mk .base f items) = .ok t2 ∧
      stimEq t2 (Stim1.mk .base f items) = .ok true := by
  refine ⟨.mk .base ⟨f.description, f.startTime, f.units, 0⟩ l2, ?_, ?_⟩
  · simp [stimRoundTrip, saveStim, hsave, buildArgs, Stim1.getattrJ, Stim1.baseF,
      Kind1.attrNames, Kind1.typeTag, dictSet, loadStim, knownTags, hload,
      constructStim, dictGet, getNumReq, getStrD, getUnitsD_unitsJ]
  · exact stimEq_base_of _ _ _ _ rfl rfl rfl hlen heq

theorem rt_train (n : ℤ) (pd a iv : ℚ) (f : BaseFields) (recs : List SaveRec)
    (hsave : saveItems (trainItems n pd a iv f.units) = .ok recs) :
    ∃ t2, stimRoundTrip (Stim1.mk (.trainK n pd a iv) f (trainItems n pd a iv f.units)) = .ok t2 ∧
      stimEq t2 (Stim1.mk (.trainK n pd a iv) f (trainItems n pd a iv f.units)) = .ok true := by
  refine ⟨.mk (.trainK n pd a iv) ⟨f.description, f.startTime, f.units, 0⟩
      (trainItems n pd a iv f.units), ?_, ?_⟩
  · simp [stimRoundTrip, saveStim, hsave, buildArgs, Stim1.getattrJ, Stim1.baseF,
      Kind1.attrNames, Kind1.typeTag, dictSet, loadStim, loadItems, knownTags,
      constructStim, dictGet, getNumReq, getIntReq, getStrD, getUnitsD_unitsJ]
  · have hch := stimEqList_refl_pulses (trainItems n pd a iv f.units)
      (trainItems_pulses n pd a iv f.units)
    simp [stimEq, Kind1.typeTag, Kind1.attrNames, attrsEq, Stim1.getattrJ, Stim1.baseF, hch]

theorem rt_series (ts ds amps : List ℚ) (f : BaseFields) (recs : List SaveRec)
    (h1 : ts.length = ds.length) (h2 : ds.length = amps.length)
    (hsave : saveItems (seriesItems ts ds amps f.units) = .ok recs) :
    ∃ t2, stimRoundTrip (Stim1.mk (.seriesK ts ds amps) f (seriesItems ts ds amps f.units)) = .ok t2 ∧
      stimEq t2 (Stim1.mk (.seriesK ts ds amps) f (seriesItems ts ds amps f.units)) = .ok true := by
  refine ⟨.mk (.seriesK ts ds amps) ⟨f.description, f.startTime, f.units, 0⟩
      (seriesItems ts ds amps f.units), ?_, ?_⟩
  · simp [stimRoundTrip, saveStim, hsave, buildArgs, Stim1.getattrJ, Stim1.baseF,
      Kind1.attrNames, Kind1.typeTag, dictSet, loadStim, loadItems, knownTags,
      constructStim, dictGet, getNumReq, getArrReq, getStrD, getUnitsD_unitsJ, h1, h2]
  · have hch := stimEqList_refl_pulses (seriesItems ts ds amps f.units)
      (seriesItems_pulses ts ds amps f.units)
    simp [stimEq, Kind1.typeTag, Kind1.attrNames, attrsEq, Stim1.getattrJ, Stim1.baseF, hch]

theorem c1Aux (n : ℕ) :
    (∀ t : Stim1, sizeOf t ≤ n → WFStim t →
      ∃ t2, stimRoundTrip t = .ok t2 ∧ stimEq t2 t = .ok true) ∧
    (∀ l : List Stim1, sizeOf l ≤ n → WFList l →
      ∃ recs l2, saveItems l = .ok recs ∧ loadItems recs = .ok l2 ∧
        l2.length = l.length ∧ stimEqList l2 l = .ok true) := by
  induction n with
  | zero =>
    constructor
    · intro t ht _
      exfalso
      obtain ⟨k, f, items⟩ := t
      simp only [Stim1.mk.sizeOf_spec] at ht
      omega
    · intro l hl _
      exfalso
      cases l with
      | nil =>
        have h1 : sizeOf ([] : List Stim1) = 1 := rfl
        omega
      | cons a as =>
        simp only [List.cons.sizeOf_spec] at hl
        omega
  | succ n ih =>
    constructor
    · intro t ht hwf
      obtain ⟨k, f, items⟩ := t
      have hsz : sizeOf items ≤ n := by
        have := sizeOf_items_lt k f items
        omega
      cases k with
      | base =>
        have hw : WFList items := by simpa [WFStim] using hwf
        obtain ⟨recs, l2, hs, hl, hlen, heq⟩ := ih.2 items hsz hw
        exact rt_base f items recs l2 hs hl hlen heq
      | offsetK a =>
        have hi : items = [] := by simpa [WFStim] using hwf
        subst hi
        exact rt_offset a f
      | pulseK a pn =>
        have hi : items = [] := by simpa [WFStim] using hwf
        subst hi
        exact rt_pulse a pn f
      | trainK np pd a iv =>
        have hi : items = trainItems np pd a iv f.units := by simpa [WFStim] using hwf
        subst hi
        obtain ⟨recs, l2, hs, h2, h3, h4⟩ := ih.2 _ hsz (wf_trainItems np pd a iv f.units)
        exact rt_train np pd a iv f recs hs
      | seriesK ts ds amps =>
        have hw : ts.length = ds.length ∧ ds.length = amps.length ∧
            items = seriesItems ts ds amps f.units := by simpa [WFStim] using hwf
        obtain ⟨h1, h2, hi⟩ := hw
        subst hi
        obtain ⟨recs, l2, hs, h5, h6, h7⟩ := ih.2 _ hsz (wf_seriesItems ts ds amps f.units)
        exact rt_series ts ds amps f recs h1 h2 hs
      | lazyK =>
        exact absurd hwf (by simp [WFStim])
      | rampK sl ofv =>
        exact absurd hwf (by simp [WFStim])
      | sineK fr a ph ofv =>
        have hi : items = [] := by simpa [WFStim] using hwf
        subst hi
        exact rt_sine fr a ph ofv f
      | chirpK f0 f1 a ph ofv =>
        have hi : items = [] := by simpa [WFStim] using hwf
        subst hi
        exact rt_chirp f0 f1 a ph ofv f
      | pspK rt dtau a rp =>
        have hi : items = [] := by simpa [WFStim] using hwf
        subst hi
        exact rt_psp rt dtau a rp f
    · intro l hl hwf
      cases l with
      | nil => exact ⟨[], [], rfl, rfl, rfl, rfl⟩
      | cons s rest =>
        simp only [List.cons.sizeOf_spec] at hl
        have hss : sizeOf s ≤ n := by omega
        have hsr : sizeOf rest ≤ n := by omega
        have hw : WFStim s ∧ WFList rest := by simpa [WFList] using hwf
        obtain ⟨t2, hrt, heq⟩ := ih.1 s hss hw.1
        obtain ⟨recs, l2, hs, hl2, hlen, heqs⟩ := ih.2 rest hsr hw.2
        have hsplit : ∃ r, saveStim s = .ok r ∧ loadStim r = .ok t2 := by
          simp only [stimRoundTrip] at hrt
          cases hsv : saveStim s with
          | error e =>
            rw [hsv] at hrt
            exact absurd hrt (by simp)
          | ok r =>
            rw [hsv] at hrt
            exact ⟨r, rfl, hrt⟩
        obtain ⟨r, hsv, hld⟩ := hsplit
        refine ⟨r :: recs, t2 :: l2, ?_, ?_, ?_, ?_⟩
        · simp [saveItems, hsv, hs]
        · simp [loadItems, hld, hl2]
        · simp [hlen]
        · simp [stimEqList, heq, heqs]


/-- C1: the unrestricted claim fails in two ways.  Saving any `Ramp` raises
an AttributeError, because `Ramp._attributes` lists `initial_amplitude`
while `Ramp.__init__` stores that constructor argument under `self.offset`;
and any `LazyLoadStimulus` saves (only its inherited base attributes) but can
never be reloaded, since the saved args carry no `loader` and
`LazyLoadStimulus.__init__` raises without one. -/
theorem c1_counterexample :
    stimRoundTrip rampExample = .error "AttributeError: initial_amplitude" ∧
    stimRoundTrip lazyExample =
      .error "Use of a LazyLoadStimulus requires a loader to be specified upon init." :=
  ⟨rfl, rfl⟩

/-- C1 (amended): for every well-formed stimulus tree - no `Ramp` nodes, no
`LazyLoadStimulus` nodes, manually attached children only under base
`Stimulus` nodes, and train/series nodes carrying exactly their
auto-generated pulses - `load(save(t))` succeeds and the result is
`__eq__`-equal to `t`. -/
theorem c1_save_load_roundtrip (t : Stim1) (h : WFStim t) :
    ∃ t2, stimRoundTrip t = .ok t2 ∧ stimEq t2 t = .ok true :=
  (c1Aux (sizeOf t)).1 t le_rfl h

theorem c1_witness :
    WFStim c1Tree ∧ ∃ t2, stimRoundTrip c1Tree = .ok t2 ∧ stimEq t2 c1Tree = .ok true :=
  ⟨by simp [c1Tree, WFStim, WFList],
    c1_save_load_roundtrip c1Tree (by simp [c1Tree, WFStim, WFList])⟩

/-- C10: `__eq__` compares only the `_attributes` of the variant (plus type
tag and pairwise-equal children); for base `Stimulus` nodes that list is
`description`, `start_time`, `units` - `duration` is excluded, so two base
nodes differing only in their (independently arbitrary) duration slots
compare equal. -/
theorem c10_eq_ignores_base_duration (f g : BaseFields) (items items2 : List Stim1)
    (hd : f.description = g.description) (hs : f.startTime = g.startTime)
    (hu : f.units = g.units) (hlen : items.length = items2.length)
    (hch : stimEqList items items2 = .ok true) :
    Kind1.attrNames .base = ["description", "start_time", "units"] ∧
    stimEq (.mk .base f items) (.mk .base g items2) = .ok true :=
  ⟨rfl, stimEq_base_of f g items items2 hd hs hu hlen hch⟩

theorem c10_witness :
    Kind1.attrNames .base = ["description", "start_time", "units"] ∧
    stimEq (.mk .base ⟨"stimulus", 0, none, 0⟩ [])
      (.mk .base ⟨"stimulus", 0, none, 5⟩ []) = .ok true :=
  c10_eq_ignores_base_duration ⟨"stimulus", 0, none, 0⟩ ⟨"stimulus", 0, none, 5⟩
    [] [] rfl rfl rfl rfl rfl

theorem any_of_perm {α} (f : α → Bool) {l1 l2 : List α} (h : l1.Perm l2) :
    l1.any f = l2.any f := by
  rw [Bool.eq_iff_iff, List.any_eq_true, List.any_eq_true]
  constructor
  · rintro ⟨x, hx, hf⟩
    exact ⟨x, h.mem_iff.mp hx, hf⟩
  · rintro ⟨x, hx, hf⟩
    exact ⟨x, h.mem_iff.mpr hx, hf⟩

theorem totalContribList_eq_sum (mode : IndexMode) (t0 dt : ℝ) (n : ℕ)
    (l : List StimR) (gbase : ℝ) (j : ℕ) :
    totalContribList mode t0 dt n l gbase j =
      (l.map (fun s => totalContrib mode t0 dt n s gbase j)).sum := by
  induction l with
  | nil => simp [totalContribList]
  | cons s rest ih => simp [totalContribList, ih]

theorem totalMarkList_eq_any (mode : IndexMode) (t0 dt : ℝ) (n : ℕ)
    (l : List StimR) (gbase : ℝ) (j : ℕ) :
    totalMarkList mode t0 dt n l gbase j =
      (l.map (fun s => totalMark mode t0 dt n s gbase j)).any id := by
  induction l with
  | nil => simp [totalMarkList]
  | cons s rest ih => simp [totalMarkList, ih]

theorem sizeOfR_items_lt (k : KindR) (st : ℝ) (items : List StimR) :
    sizeOf items < sizeOf (StimR.mk k st items) := by
  simp only [StimR.mk.sizeOf_spec]
  omega

theorem c5PermAux (mode : IndexMode) (t0 dt : ℝ) (n : ℕ) : ∀ (fuel : ℕ),
    (∀ s1 : StimR, sizeOf s1 ≤ fuel → ∀ s2 : StimR, PermTree s1 s2 →
      ∀ gbase j, totalContrib mode t0 dt n s1 gbase j = totalContrib mode t0 dt n s2 gbase j ∧
        totalMark mode t0 dt n s1 gbase j = totalMark mode t0 dt n s2 gbase j) ∧
    (∀ l1 : List StimR, sizeOf l1 ≤ fuel → ∀ l2 : List StimR, PermForest l1 l2 →
      ∀ gbase j, totalContribList mode t0 dt n l1 gbase j = totalContribList mode t0 dt n l2 gbase j ∧
        totalMarkList mode t0 dt n l1 gbase j = totalMarkList mode t0 dt n l2 gbase j) := by
  intro fuel
  induction fuel with
  | zero =>
    constructor
    · intro s1 hs
      exfalso
      obtain ⟨k, st, items⟩ := s1
      simp only [StimR.mk.sizeOf_spec] at hs
      omega
    · intro l1 hs l2 hp gbase j
      cases hp with
      | nil => exact ⟨rfl, rfl⟩
      | cons h1 h2 =>
        exfalso
        simp only [List.cons.sizeOf_spec] at hs
        omega
  | succ fuel ih =>
    constructor
    · intro s1 hs s2 hp gbase j
      cases hp with
      | node k st hf hperm =>
        rename_i l1 l1a l2
        have hsz : sizeOf l1 ≤ fuel := by
          have := sizeOfR_items_lt k st l1
          omega
        have h1 := (ih.2 l1 hsz l1a hf (gbase + st) j)
        constructor
        · simp only [totalContrib]
          rw [h1.1, totalContribList_eq_sum, totalContribList_eq_sum,
            (hperm.map (fun s => totalContrib mode t0 dt n s (gbase + st) j)).sum_eq]
        · simp only [totalMark]
          rw [h1.2, totalMarkList_eq_any, totalMarkList_eq_any,
            any_of_perm id (hperm.map (fun s => totalMark mode t0 dt n s (gbase + st) j))]
    · intro l1 hs l2 hp gbase j
      cases hp with
      | nil => exact ⟨rfl, rfl⟩
      | cons h1 h2 =>
        rename_i a b la lb
        simp only [List.cons.sizeOf_spec] at hs
        have ha := ih.1 a (by omega) b h1 gbase j
        have hl := ih.2 la (by omega) lb h2 gbase j
        constructor
        · simp only [totalContribList, ha.1, hl.1]
        · simp only [totalMarkList, ha.2, hl.2]

theorem addWindowR_length (l : List ℝ) (i0 i1 : ℕ) (g : ℕ → ℝ) :
    (addWindowR l i0 i1 g).length = l.length := by
  simp [addWindowR]

theorem markWindow_length (l : List Bool) (i0 i1 : ℕ) :
    (markWindow l i0 i1).length = l.length := by
  simp [markWindow]

theorem c5DecAux (mode : IndexMode) (t0 dt : ℝ) : ∀ (fuel : ℕ),
    (∀ s : StimR, sizeOf s ≤ fuel → ∀ gbase (data : List ℝ),
      StimR.evalIntoR mode t0 dt s gbase data =
        data.mapIdx (fun j x => x + totalContrib mode t0 dt data.length s gbase j)) ∧
    (∀ l : List StimR, sizeOf l ≤ fuel → ∀ gbase (data : List ℝ),
      evalItemsIntoR mode t0 dt l gbase data =
        data.mapIdx (fun j x => x + totalContribList mode t0 dt data.length l gbase j)) := by
  intro fuel
  induction fuel with
  | zero =>
    constructor
    · intro s hs
      exfalso
      obtain ⟨k, st, items⟩ := s
      simp only [StimR.mk.sizeOf_spec] at hs
      omega
    · intro l hs gbase data
      cases l with
      | nil =>
        apply List.ext_getElem (by simp [evalItemsIntoR])
        intro j h1 h2
        simp [totalContribList, List.getElem_mapIdx, evalItemsIntoR]
      | cons a rest =>
        exfalso
        simp only [List.cons.sizeOf_spec] at hs
        omega
  | succ fuel ih =>
    constructor
    · intro s hs gbase data
      obtain ⟨k, st, items⟩ := s
      have hsz : sizeOf items ≤ fuel := by
        have := sizeOfR_items_lt k st items
        omega
      have hitems := ih.2 items hsz (gbase + st) data
      have hlen : (evalItemsIntoR mode t0 dt items (gbase + st) data).length = data.length := by
        rw [hitems]; simp
      cases k with
      | base =>
        simp only [StimR.evalIntoR]
        rw [hitems]
        apply List.ext_getElem (by simp)
        intro j h1 h2
        simp only [List.getElem_mapIdx, totalContrib, KindR.contribK]
        ring
      | offsetR a =>
        simp only [StimR.evalIntoR]
        rw [hitems]
        apply List.ext_getElem (by simp [addWindowR])
        intro j h1 h2
        have hj : j < data.length := by simpa [addWindowR] using h1
        simp only [addWindowR, List.getElem_mapIdx, totalContrib, KindR.contribK,
          List.length_mapIdx]
        by_cases hw : pySliceIdx data.length (indexAtR t0 dt (gbase + st) mode) ≤ j ∧
            j < data.length
        · rw [if_pos hw, if_pos hw]
          ring
        · rw [if_neg hw, if_neg hw]
          ring
      | pulseR dur a =>
        simp only [StimR.evalIntoR]
        rw [hitems]
        apply List.ext_getElem (by simp [addWindowR])
        intro j h1 h2
        simp only [addWindowR, List.getElem_mapIdx, totalContrib, KindR.contribK,
          List.length_mapIdx]
        by_cases hw : pySliceIdx data.length (indexAtR t0 dt (gbase + st) mode) ≤ j ∧
            j < pySliceIdx data.length (indexAtR t0 dt (gbase + st + dur) mode)
        · rw [if_pos hw, if_pos hw]
          ring
        · rw [if_neg hw, if_neg hw]
          ring
      | rampR dur sl ofv =>
        simp only [StimR.evalIntoR]
        rw [hitems]
        apply List.ext_getElem (by simp [addWindowR])
        intro j h1 h2
        simp only [addWindowR, List.getElem_mapIdx, totalContrib, KindR.contribK,
          List.length_mapIdx]
        by_cases hw : pySliceIdx data.length (indexAtR t0 dt (gbase + st) mode) ≤ j ∧
            j < pySliceIdx data.length (indexAtR t0 dt (gbase + st + dur) mode)
        · rw [if_pos hw, if_pos hw]
          ring
        · rw [if_neg hw, if_neg hw]
          ring
      | sineR dur fr a ph ofv =>
        simp only [StimR.evalIntoR]
        rw [hitems]
        apply List.ext_getElem (by simp [addWindowR])
        intro j h1 h2
        simp only [addWindowR, List.getElem_mapIdx, totalContrib, KindR.contribK,
          List.length_mapIdx]
        by_cases hw : pySliceIdx data.length (indexAtR t0 dt (gbase + st) mode) ≤ j ∧
            j < pySliceIdx data.length (indexAtR t0 dt (gbase + st + dur) mode)
        · rw [if_pos hw, if_pos hw]
          ring
        · rw [if_neg hw, if_neg hw]
          ring
      | chirpR dur f0 f1 a ph ofv =>
        simp only [StimR.evalIntoR]
        rw [hitems]
        apply List.ext_getElem (by simp [addWindowR])
        intro j h1 h2
        simp only [addWindowR, List.getElem_mapIdx, totalContrib, KindR.contribK,
          List.length_mapIdx]
        by_cases hw : pySliceIdx data.length (indexAtR t0 dt (gbase + st) mode) ≤ j ∧
            j < pySliceIdx data.length (indexAtR t0 dt (gbase + st + dur) mode)
        · rw [if_pos hw, if_pos hw]
          ring
        · rw [if_neg hw, if_neg hw]
          ring
      | pspR rt dtau a rp =>
        simp only [StimR.evalIntoR]
        rw [hitems]
        apply List.ext_getElem (by simp [addWindowR])
        intro j h1 h2
        simp only [addWindowR, List.getElem_mapIdx, totalContrib, KindR.contribK,
          List.length_mapIdx]
        by_cases hw : pySliceIdx data.length (indexAtR t0 dt (gbase + st) mode) ≤ j ∧
            j < pySliceIdx data.length
              (indexAtR t0 dt (gbase + st + 15 * max rt dtau) mode)
        · rw [if_pos hw, if_pos hw]
          ring
        · rw [if_neg hw, if_neg hw]
          ring
    · intro l hs gbase data
      cases l with
      | nil =>
        apply List.ext_getElem (by simp [evalItemsIntoR])
        intro j h1 h2
        simp [totalContribList, List.getElem_mapIdx, evalItemsIntoR]
      | cons a rest =>
        simp only [List.cons.sizeOf_spec] at hs
        have ha := ih.1 a (by omega) gbase data
        simp only [evalItemsIntoR]
        rw [ha]
        have hrest := ih.2 rest (by omega) gbase
          (data.mapIdx (fun j x => x + totalContrib mode t0 dt data.length a gbase j))
        rw [hrest]
        apply List.ext_getElem (by simp)
        intro j h1 h2
        simp only [List.getElem_mapIdx, List.length_mapIdx, totalContribList]
        ring

theorem c5MaskAux (mode : IndexMode) (t0 dt : ℝ) : ∀ (fuel : ℕ),
    (∀ s : StimR, sizeOf s ≤ fuel → ∀ gbase (data : List Bool),
      StimR.maskIntoR mode t0 dt s gbase data =
        data.mapIdx (fun j x => x || totalMark mode t0 dt data.length s gbase j)) ∧
    (∀ l : List StimR, sizeOf l ≤ fuel → ∀ gbase (data : List Bool),
      maskItemsIntoR mode t0 dt l gbase data =
        data.mapIdx (fun j x => x || totalMarkList mode t0 dt data.length l gbase j)) := by
  intro fuel
  induction fuel with
  | zero =>
    constructor
    · intro s hs
      exfalso
      obtain ⟨k, st, items⟩ := s
      simp only [StimR.mk.sizeOf_spec] at hs
      omega
    · intro l hs gbase data
      cases l with
      | nil =>
        apply List.ext_getElem (by simp [maskItemsIntoR])
        intro j h1 h2
        simp [totalMarkList, List.getElem_mapIdx, maskItemsIntoR]
      | cons a rest =>
        exfalso
        simp only [List.cons.sizeOf_spec] at hs
        omega
  | succ fuel ih =>
    constructor
    · intro s hs gbase data
      obtain ⟨k, st, items⟩ := s
      have hsz : sizeOf items ≤ fuel := by
        have := sizeOfR_items_lt k st items
        omega
      have hitems := ih.2 items hsz (gbase + st) data
      cases k with
      | base =>
        simp only [StimR.maskIntoR]
        rw [hitems]
        apply List.ext_getElem (by simp)
        intro j h1 h2
        simp [List.getElem_mapIdx, totalMark, KindR.markK]
      | offsetR a =>
        simp only [StimR.maskIntoR]
        rw [hitems]
        apply List.ext_getElem (by simp [markWindow])
        intro j h1 h2
        simp only [markWindow, List.getElem_mapIdx, totalMark, KindR.markK,
          List.length_mapIdx]
        by_cases hw : pySliceIdx data.length (indexAtR t0 dt (gbase + st) mode) ≤ j ∧
            j < data.length
        · simp [if_pos hw, hw]
        · simp [if_neg hw, hw]
      | pulseR dur a =>
        simp only [StimR.maskIntoR]
        rw [hitems]
        apply List.ext_getElem (by simp [markWindow])
        intro j h1 h2
        simp only [markWindow, List.getElem_mapIdx, totalMark, KindR.markK,
          List.length_mapIdx]
        by_cases hw : pySliceIdx data.length (indexAtR t0 dt (gbase + st) mode) ≤ j ∧
            j < pySliceIdx data.length (indexAtR t0 dt (gbase + st + dur) mode)
        · simp [if_pos hw, hw]
        · simp [if_neg hw, hw]
      | rampR dur sl ofv =>
        simp only [StimR.maskIntoR]
        rw [hitems]
        apply List.ext_getElem (by simp [markWindow])
        intro j h1 h2
        simp only [markWindow, List.getElem_mapIdx, totalMark, KindR.markK,
          List.length_mapIdx]
        by_cases hw : pySliceIdx data.length (indexAtR t0 dt (gbase + st) mode) ≤ j ∧
            j < pySliceIdx data.length (indexAtR t0 dt (gbase + st + dur) mode)
        · simp [if_pos hw, hw]
        · simp [if_neg hw, hw]
      | sineR dur fr a ph ofv =>
        simp only [StimR.maskIntoR]
        rw [hitems]
        apply List.ext_getElem (by simp [markWindow])
        intro j h1 h2
        simp only [markWindow, List.getElem_mapIdx, totalMark, KindR.markK,
          List.length_mapIdx]
        by_cases hw : pySliceIdx data.length (indexAtR t0 dt (gbase + st) mode) ≤ j ∧
            j < pySliceIdx data.length (indexAtR t0 dt (gbase + st + dur) mode)
        · simp [if_pos hw, hw]
        · simp [if_neg hw, hw]
      | chirpR dur f0 f1 a ph ofv =>
        simp only [StimR.maskIntoR]
        rw [hitems]
        apply List.ext_getElem (by simp [markWindow])
        intro j h1 h2
        simp only [markWindow, List.getElem_mapIdx, totalMark, KindR.markK,
          List.length_mapIdx]
        by_cases hw : pySliceIdx data.length (indexAtR t0 dt (gbase + st) mode) ≤ j ∧
            j < pySliceIdx data.length (indexAtR t0 dt (gbase + st + dur) mode)
        · simp [if_pos hw, hw]
        · simp [if_neg hw, hw]
      | pspR rt dtau a rp =>
        simp only [StimR.maskIntoR]
        rw [hitems]
        apply List.ext_getElem (by simp [markWindow])
        intro j h1 h2
        simp only [markWindow, List.getElem_mapIdx, totalMark, KindR.markK,
          List.length_mapIdx]
        by_cases hw : pySliceIdx data.length (indexAtR t0 dt (gbase + st) mode) ≤ j ∧
            j < pySliceIdx data.length
              (indexAtR t0 dt (gbase + st + 15 * max rt dtau) mode)
        · simp [if_pos hw, hw]
        · simp [if_neg hw, hw]
    · intro l hs gbase data
      cases l with
      | nil =>
        apply List.ext_getElem (by simp [maskItemsIntoR])
        intro j h1 h2
        simp [totalMarkList, List.getElem_mapIdx, maskItemsIntoR]
      | cons a rest =>
        simp only [List.cons.sizeOf_spec] at hs
        have ha := ih.1 a (by omega) gbase data
        simp only [maskItemsIntoR]
        rw [ha]
        have hrest := ih.2 rest (by omega) gbase
          (data.mapIdx (fun j x => x || totalMark mode t0 dt data.length a gbase j))
        rw [hrest]
        apply List.ext_getElem (by simp)
        intro j h1 h2
        simp only [List.getElem_mapIdx, List.length_mapIdx, totalMarkList]
        simp [Bool.or_assoc]

/-- C5: for every pair of stimulus trees related by permuting the children of
any nodes (at any depth) and every fixed output timing specification
(`index_mode`, `t0`, `dt`, buffer), `eval` and `mask` produce identical
output buffers: each node's contribution is purely additive (resp. pure
boolean marking) into the shared buffer. -/
theorem c5_eval_mask_order_independent (mode : IndexMode) (t0 dt : ℝ)
    {s1 s2 : StimR} (h : PermTree s1 s2) (gbase : ℝ)
    (data : List ℝ) (bdata : List Bool) :
    StimR.evalIntoR mode t0 dt s1 gbase data = StimR.evalIntoR mode t0 dt s2 gbase data ∧
    StimR.maskIntoR mode t0 dt s1 gbase bdata = StimR.maskIntoR mode t0 dt s2 gbase bdata := by
  have hc := ((c5PermAux mode t0 dt data.length (sizeOf s1)).1 s1 le_rfl s2 h)
  have hm := ((c5PermAux mode t0 dt bdata.length (sizeOf s1)).1 s1 le_rfl s2 h)
  constructor
  · rw [((c5DecAux mode t0 dt (sizeOf s1)).1 s1 le_rfl gbase data),
      ((c5DecAux mode t0 dt (sizeOf s2)).1 s2 le_rfl gbase data)]
    apply List.ext_getElem (by simp)
    intro j h1 h2
    simp only [List.getElem_mapIdx]
    rw [(hc gbase j).1]
  · rw [((c5MaskAux mode t0 dt (sizeOf s1)).1 s1 le_rfl gbase bdata),
      ((c5MaskAux mode t0 dt (sizeOf s2)).1 s2 le_rfl gbase bdata)]
    apply List.ext_getElem (by simp)
    intro j h1 h2
    simp only [List.getElem_mapIdx]
    rw [(hm gbase j).2]

theorem c5_witness :
    PermTree c5TreeA c5TreeB ∧
    (StimR.evalIntoR .floor 0 1 c5TreeA 0 [0, 0, 0] = StimR.evalIntoR .floor 0 1 c5TreeB 0 [0, 0, 0] ∧
     StimR.maskIntoR .floor 0 1 c5TreeA 0 [false, false] = StimR.maskIntoR .floor 0 1 c5TreeB 0 [false, false]) := by
  have hp : PermTree c5TreeA c5TreeB := by
    show PermTree
      (.mk .base 0 [.mk (.offsetR 1) 0 [], .mk (.pulseR 2 3) 1 []])
      (.mk .base 0 [.mk (.pulseR 2 3) 1 [], .mk (.offsetR 1) 0 []])
    exact PermTree.node .base 0
      (PermForest.cons (PermTree.node _ _ PermForest.nil (List.Perm.refl _))
        (PermForest.cons (PermTree.node _ _ PermForest.nil (List.Perm.refl _))
          PermForest.nil))
      (List.Perm.swap _ _ _)
  exact ⟨hp, c5_eval_mask_order_independent .floor 0 1 hp 0 [0, 0, 0] [false, false]⟩

/-- C9: the unrestricted claim fails - for the valid non-zero pair
`start_frequency = end_frequency = 1` (with duration 1) the ratio `r` is 1,
`ln r = 0`, and `frequency_at(0)` degenerates to 0 instead of 1 (the float
code produces `k = inf` and then `nan`; either way it is not the start
frequency). -/
theorem c9_counterexample :
    ((1 : ℝ) ≠ 0 ∧ (1 : ℝ) ≠ 0) ∧
      chirpFrequencyAt 1 1 1 0 = 0 ∧ chirpFrequencyAt 1 1 1 0 ≠ 1 := by
  have h : chirpFrequencyAt 1 1 1 0 = 0 := by
    simp [chirpFrequencyAt, chirpKR]
  exact ⟨⟨one_ne_zero, one_ne_zero⟩, h, by rw [h]; norm_num⟩

/-- C9 (amended): for every Chirp whose frequency pair is non-zero, of the
same sign and not equal (and whose duration is non-zero),
`frequency_at(0) = start_frequency` and `frequency_at(duration) =
end_frequency`. -/
theorem c9_chirp_frequency_endpoints (d f0 f1 : ℝ) (hd : d ≠ 0) (h0 : f0 ≠ 0)
    (hpos : 0 < f1 / f0) (hne : f1 ≠ f0) :
    chirpFrequencyAt d f0 f1 0 = f0 ∧ chirpFrequencyAt d f0 f1 d = f1 := by
  have hr1 : f1 / f0 ≠ 1 := by
    intro h
    exact hne ((div_eq_one_iff_eq h0).mp h)
  have hlog : Real.log (f1 / f0) ≠ 0 := by
    intro h
    rcases Real.log_eq_zero.mp h with h2 | h2 | h2
    · exact absurd h2 (ne_of_gt hpos)
    · exact hr1 h2
    · rw [h2] at hpos
      norm_num at hpos
  have hpi : (2 : ℝ) * Real.pi ≠ 0 := by
    have := Real.pi_ne_zero
    positivity
  constructor
  · simp only [chirpFrequencyAt, chirpKR, if_neg h0, zero_div, Real.rpow_zero, mul_one]
    field_simp
  · simp only [chirpFrequencyAt, chirpKR, if_neg h0, div_self hd, Real.rpow_one]
    field_simp
    ring

theorem c9_witness : chirpFrequencyAt 1 1 2 0 = 1 ∧ chirpFrequencyAt 1 1 2 1 = 2 :=
  c9_chirp_frequency_endpoints 1 1 2 (by norm_num) (by norm_num) (by norm_num) (by norm_num)

theorem noisyStep_sound (data : List ℝ) (t0 dt blMean : ℝ) (changes : List ℕ) (n : ℕ)
    (minD minA : ℝ) (acc : List PulseR × ℕ) (pr : ℕ × ℕ)
    (hacc : ∀ q ∈ acc.1, SoundPulse data t0 dt blMean minD minA q) :
    ∀ q ∈ (noisyStep data t0 dt blMean changes n minD minA acc pr).1,
      SoundPulse data t0 dt blMean minD minA q := by
  intro q hq
  simp only [noisyStep] at hq
  split_ifs at hq with h1 h2 h3 h4
  · exact hacc q hq
  · rcases List.mem_append.mp hq with hold | hnew
    · exact hacc q hold
    · rw [List.mem_singleton] at hnew
      subst hnew
      exact ⟨h3.1, h3.2, pr.2, changes.getD (pr.1 + 1) 0, rfl, rfl, rfl⟩
  · exact hacc q hq
  · rcases List.mem_append.mp hq with hold | hnew
    · exact hacc q hold
    · rw [List.mem_singleton] at hnew
      subst hnew
      exact ⟨h4.1, h4.2, pr.2, n, rfl, rfl, rfl⟩
  · exact hacc q hq

theorem noisyFold_sound (data : List ℝ) (t0 dt blMean : ℝ) (changes : List ℕ) (n : ℕ)
    (minD minA : ℝ) :
    ∀ (l : List (ℕ × ℕ)) (acc : List PulseR × ℕ),
      (∀ q ∈ acc.1, SoundPulse data t0 dt blMean minD minA q) →
      ∀ q ∈ (l.foldl (noisyStep data t0 dt blMean changes n minD minA) acc).1,
        SoundPulse data t0 dt blMean minD minA q := by
  intro l
  induction l with
  | nil => intro acc hacc; exact hacc
  | cons pr rest ih =>
    intro acc hacc
    simp only [List.foldl_cons]
    exact ih _ (noisyStep_sound data t0 dt blMean changes n minD minA acc pr hacc)

/-- C7 (amended): every pulse returned by `find_noisy_square_pulses` is
strictly longer than `min_duration`, has absolute amplitude strictly above
`min_amplitude` (boundary segments are discarded, unlike the claim's
"not shorter / not below" reading), and its amplitude is a segment mean minus
the baseline mean; the omitted-baseline call equals the call with the first
200 samples as baseline. -/
theorem c7_detection_soundness (data baseline : List ℝ) (t0 dt stdT minD minA : ℝ)
    (p : PulseR)
    (hp : p ∈ findNoisySquarePulses data t0 dt (some baseline) stdT minD minA) :
    SoundPulse data t0 dt (meanR baseline) minD minA p ∧
    findNoisySquarePulses data t0 dt none stdT minD minA =
      findNoisySquarePulses data t0 dt (some (data.take 200)) stdT minD minA := by
  constructor
  · simp only [findNoisySquarePulses, Option.getD_some] at hp
    exact noisyFold_sound data t0 dt (meanR baseline) _ data.length minD minA _ _
      (by intro q hq; simp at hq) p hp
  · rfl

theorem c7_std_eval : stdR [1, -1, 1, -1] = 1 := by
  norm_num [stdR, meanR, Real.sqrt_one]

theorem c7_diff_eval :
    npDiffR (([0, 0, 5, 5, 0, 0] : List ℝ).map (fun x => x - meanR [1, -1, 1, -1])) =
      [0, 5, 0, -5, 0] := by
  norm_num [npDiffR, meanR]

theorem c7_discard_eval :
    findNoisySquarePulses [0, 0, 5, 5, 0, 0] 0 1 (some [1, -1, 1, -1]) 1 2 0 = [] := by
  norm_num [findNoisySquarePulses, noisyStep, npDiffR, pyGetR, meanR, c7_std_eval,
    List.range_succ, List.enum, List.enumFrom, List.filter_append, decide_eq_true_eq,
    List.filterMap_cons, List.foldl_cons, List.getElem?_cons_zero, List.getElem?_cons_succ]

theorem c7_keep_eval :
    findNoisySquarePulses [0, 0, 5, 5, 0, 0] 0 1 (some [1, -1, 1, -1]) 1 1 0 =
      [⟨2, 2, 5⟩] := by
  norm_num [findNoisySquarePulses, noisyStep, npDiffR, pyGetR, meanR, c7_std_eval,
    List.range_succ, List.enum, List.enumFrom, List.filter_append, decide_eq_true_eq,
    List.filterMap_cons, List.foldl_cons, List.getElem?_cons_zero, List.getElem?_cons_succ]

/-- C7: the retention boundary is strict, contradicting the claim's
"not shorter than min_duration / not below min_amplitude are retained": on a
clean two-sample pulse of amplitude 5 (baseline of mean 0 and std 1,
threshold 1), the detector finds the segment of duration exactly 2, yet with
`min_duration = 2` it returns nothing, while `min_duration = 1` returns that
very segment. -/
theorem c7_counterexample :
    findNoisySquarePulses [0, 0, 5, 5, 0, 0] 0 1 (some [1, -1, 1, -1]) 1 2 0 = [] ∧
    findNoisySquarePulses [0, 0, 5, 5, 0, 0] 0 1 (some [1, -1, 1, -1]) 1 1 0 =
      [⟨2, 2, 5⟩] :=
  ⟨c7_discard_eval, c7_keep_eval⟩

theorem c7_witness :
    SoundPulse [0, 0, 5, 5, 0, 0] 0 1 (meanR [1, -1, 1, -1]) 1 0 ⟨2, 2, 5⟩ ∧
    findNoisySquarePulses [0, 0, 5, 5, 0, 0] 0 1 none 1 1 0 =
      findNoisySquarePulses [0, 0, 5, 5, 0, 0] 0 1
        (some (([0, 0, 5, 5, 0, 0] : List ℝ).take 200)) 1 1 0 :=
  c7_detection_soundness [0, 0, 5, 5, 0, 0] [1, -1, 1, -1] 0 1 1 1 0 ⟨2, 2, 5⟩
    (by rw [c7_keep_eval]; exact List.mem_singleton_self _)
